import Mathlib

/-!
Classic LZMA: probability primitive, probability tree, header codec and
streaming writer.

A shallow embedding of `lzma/prob.go`, `lzma/parameters.go` and
`lzma/writer.go`, followed by the properties proved about it.

Conventions of the embedding:

* Go's unsigned machine integers are natural numbers reduced modulo `2^w`
  at every operation that can wrap (`uint16` for `prob`, `uint32`, `uint64`).
* Go's `int` is taken as 64 bits wide, like `int64`; signed values are
  integers, and a conversion to a signed type goes through `toInt64`.
* A byte is a `Fin 256`; a byte slice is a `List Byte`.
* A Go function that can panic returns a `Result`, whose `panic` constructor
  carries the panic value.
-/

namespace lzma

/-! ## Machine arithmetic -/

/-- A Go `byte`. -/
abbrev Byte := Fin 256

/-- The conversion `byte(x)` of an unsigned integer: the low eight bits. -/
def byte (x : Nat) : Byte := ⟨x % 256, Nat.mod_lt x (by decide)⟩

/-- The conversion of an unsigned value to `int64` (and to `int`, taken as 64
bits wide): two's complement reinterpretation of the low 64 bits. -/
def toInt64 (x : Nat) : Int :=
  if x % 2 ^ 64 < 2 ^ 63 then ((x % 2 ^ 64 : Nat) : Int)
  else ((x % 2 ^ 64 : Nat) : Int) - 2 ^ 64

/-- The conversion `uint32(x)` of a signed integer. -/
def uint32 (x : Int) : Nat := (x % 2 ^ 32).toNat

/-- The conversion `uint64(x)` of a signed integer. -/
def uint64 (x : Int) : Nat := (x % 2 ^ 64).toNat

/-- A Go `error` value, by the call that made it. -/
inductive Error where
  /-- The value `io.EOF`. -/
  | EOF
  /-- The value `io.ErrUnexpectedEOF`. -/
  | ErrUnexpectedEOF
  /-- The value of `errors.New(text)`. -/
  | New (text : String)
  /-- The value of `fmt.Errorf(format, arg)` with one integer argument. -/
  | Errorf (format : String) (arg : Int)
  deriving DecidableEq

/-- The outcome of a Go call: a value, a returned `error`, or a panic. -/
inductive Result (α : Type) where
  | ok (a : α)
  | error (e : Error)
  | panic (msg : String)
  deriving DecidableEq

/-! ## prob.go -/

/-- The constant `movebits`. -/
def movebits : Nat := 5

/-- The constant `probbits`. -/
def probbits : Nat := 11

/-- The constant `probInit`, of type `prob`: `1 << (probbits - 1)`. -/
def probInit : Nat := (1 <<< (probbits - 1)) % 2 ^ 16

/-- Subtraction of two `uint16` values, wrapping modulo `2^16`. -/
def sub16 (a b : Nat) : Nat := (a % 2 ^ 16 + 2 ^ 16 - b % 2 ^ 16) % 2 ^ 16

/-- Addition of two `uint16` values, wrapping modulo `2^16`. -/
def add16 (a b : Nat) : Nat := (a + b) % 2 ^ 16

/-- The method `(p *prob) dec()`: `*p -= *p >> movebits`, as the new value
of `*p`. -/
def dec (p : Nat) : Nat := sub16 p (p >>> movebits)

/-- The method `(p *prob) inc()`: `*p += ((1 << probbits) - *p) >> movebits`,
as the new value of `*p`. -/
def inc (p : Nat) : Nat := add16 p ((sub16 (1 <<< probbits) p) >>> movebits)

/-- The product computed by `bound` before it is reduced to 32 bits. -/
def boundExact (p r : Nat) : Nat := (r >>> probbits) * p

/-- The method `(p prob) bound(r uint32) uint32`:
`(r >> probbits) * uint32(p)`, in 32-bit arithmetic. -/
def bound (p r : Nat) : Nat := boundExact p r % 2 ^ 32

/-- One adaptive update of a probability. -/
inductive Update where
  | dec
  | inc
  deriving DecidableEq

/-- The effect of one update on a probability. -/
def Update.apply : Update → Nat → Nat
  | .dec, p => lzma.dec p
  | .inc, p => lzma.inc p

/-- The effect of a sequence of updates, first update first. -/
def applyUpdates (us : List Update) (p : Nat) : Nat :=
  us.foldl (fun q u => u.apply q) p

/-- The type `probTree`. -/
structure probTree where
  bits : Int
  probs : List Nat
  deriving DecidableEq

/-- The expression `1 << uint(bits)` of type `int`, for `bits ≥ 0`: the low 64
bits of `2^bits`, read as a signed integer (a shift count of 64 or more
leaves 0). -/
def shiftOne (bits : Int) : Int := toInt64 (1 <<< bits.toNat)

/-- The function `makeProbTree`. It panics when `bits < 1`. The call of
`make` panics when its length argument is negative or exceeds `maxLen`, the
largest number of slots that the allocator provides for a `[]prob`: a limit
of the runtime (`2^47` slots of two bytes on a 64-bit platform), or less
where memory is short. It is a parameter of the embedding. -/
def makeProbTree (maxLen : Nat) (bits : Int) : Result probTree :=
  if bits < 1 then .panic "bits must be positive"
  else
    let n := shiftOne bits
    if n < 0 ∨ (maxLen : Int) < n then .panic "makeslice: len out of range"
    else
      let t : probTree := { bits := bits, probs := List.replicate n.toNat 0 }
      .ok { t with probs := t.probs.map (fun _ => probInit) }

/-! ## writer.go: the constants -/

/-- The constant `MinDictCap = 1 << 12`. -/
def MinDictCap : Int := ((1 <<< 12 : Nat) : Int)

/-- The constant `MaxDictCap = 1<<32 - 1`. -/
def MaxDictCap : Int := ((1 <<< 32 : Nat) : Int) - 1

/-! ## parameters.go -/

/-- The function `uint32LE`; `none` is the panic of an index out of range. -/
def uint32LE : List Byte → Option Nat
  | b0 :: b1 :: b2 :: b3 :: _ =>
    let x := (b3.val <<< 24) % 2 ^ 32
    let x := x ||| (b2.val <<< 16) % 2 ^ 32
    let x := x ||| (b1.val <<< 8) % 2 ^ 32
    let x := x ||| b0.val
    some x
  | _ => none

/-- The function `uint64LE`; `none` is the panic of an index out of range. -/
def uint64LE : List Byte → Option Nat
  | b0 :: b1 :: b2 :: b3 :: b4 :: b5 :: b6 :: b7 :: _ =>
    let x := (b7.val <<< 56) % 2 ^ 64
    let x := x ||| (b6.val <<< 48) % 2 ^ 64
    let x := x ||| (b5.val <<< 40) % 2 ^ 64
    let x := x ||| (b4.val <<< 32) % 2 ^ 64
    let x := x ||| (b3.val <<< 24) % 2 ^ 64
    let x := x ||| (b2.val <<< 16) % 2 ^ 64
    let x := x ||| (b1.val <<< 8) % 2 ^ 64
    let x := x ||| b0.val
    some x
  | _ => none

/-- The function `putUint32LE`, as the new content of the slice; `none` is
the panic of an index out of range. -/
def putUint32LE : List Byte → Nat → Option (List Byte)
  | _ :: _ :: _ :: _ :: rest, x =>
    some (byte x :: byte (x >>> 8) :: byte (x >>> 16) :: byte (x >>> 24) :: rest)
  | _, _ => none

/-- The function `putUint64LE`, as the new content of the slice; `none` is
the panic of an index out of range. -/
def putUint64LE : List Byte → Nat → Option (List Byte)
  | _ :: _ :: _ :: _ :: _ :: _ :: _ :: _ :: rest, x =>
    some (byte x :: byte (x >>> 8) :: byte (x >>> 16) :: byte (x >>> 24) ::
      byte (x >>> 32) :: byte (x >>> 40) :: byte (x >>> 48) :: byte (x >>> 56) :: rest)
  | _, _ => none

/-- The constant `noHeaderLen`, of type `uint64`: `1<<64 - 1`. -/
def noHeaderLen : Nat := 1 <<< 64 - 1

/-- The type `Properties`: the fields `LC`, `LP` and `PB`, as `writer.go`
names them. -/
structure Properties where
  LC : Int
  LP : Int
  PB : Int
  deriving DecidableEq

/-- The type `Parameters`. -/
structure Parameters where
  Properties : lzma.Properties
  DictCap : Int
  Size : Int
  BufSize : Int
  EOSMarker : Bool
  deriving DecidableEq

/-- The variable `Default`: the default parameters for the writer. -/
def Default : Parameters :=
  { Properties := { LC := 3, LP := 0, PB := 2 }, DictCap := 8 * 1024 * 1024, Size := -1,
    BufSize := 0, EOSMarker := false }

/-- The functions on `Properties` that the header codec calls and that are
declared elsewhere in the package: `Properties.Verify` (`none` is the nil
error), `Properties.Code` and `PropertiesForCode`. They are parameters of
the embedding. -/
structure PropertiesAPI where
  Verify : Properties → Option Error
  Code : Properties → Byte
  PropertiesForCode : Byte → Except Error Properties

/-- The method `normalizeReader`, as the new value of `*p`. -/
def normalizeReader (p : Parameters) : Parameters :=
  let p : Parameters := if p.DictCap < MinDictCap then { p with DictCap := MinDictCap } else p
  let p : Parameters := if p.Size < 0 then { p with EOSMarker := true } else p
  let p : Parameters := if p.BufSize ≤ 0 then { p with BufSize := p.DictCap } else p
  p

/-- An `io.Reader`: the bytes it still delivers, and the error its `Read`
returns once they are used up (`io.EOF` at the regular end of a stream). -/
structure Reader where
  data : List Byte
  err : Error
  deriving DecidableEq

/-- The library function `io.ReadFull` on a buffer of `n` bytes: the `n`
bytes read, or the error; a stream that ends after some but not all of the
bytes gives `io.ErrUnexpectedEOF`. -/
def ReadFull (r : Reader) (n : Nat) : Except Error (List Byte) :=
  if n ≤ r.data.length then .ok (r.data.take n)
  else if 0 < r.data.length ∧ r.err = Error.EOF then .error Error.ErrUnexpectedEOF
  else .error r.err

/-- The function `readHeader`. -/
def readHeader (api : PropertiesAPI) (r : Reader) : Result Parameters :=
  match ReadFull r 13 with
  | .error err => .error err
  | .ok b =>
    match b with
    | [] => .panic "index out of range"
    | b0 :: _ =>
      match api.PropertiesForCode b0 with
      | .error err => .error err
      | .ok props =>
        let p : Parameters :=
          { Properties := props, DictCap := 0, Size := -1, BufSize := 0, EOSMarker := false }
        match uint32LE (b.drop 1) with
        | none => .panic "index out of range"
        | some x =>
          let p : Parameters := { p with DictCap := toInt64 x }
          if p.DictCap < 0 then
            .error (.New "LZMA header: dictionary capacity exceeds maximum integer")
          else
            let p : Parameters := { p with BufSize := p.DictCap }
            match uint64LE (b.drop 5) with
            | none => .panic "index out of range"
            | some u =>
              if u = noHeaderLen then .ok { p with EOSMarker := true }
              else
                let p : Parameters := { p with Size := toInt64 u }
                if p.Size < 0 then
                  .error (.New "LZMA header: uncompressed length in header  out of int64 range")
                else .ok p

/-- An `io.Writer` over a state `σ`: `Write` gives the new state, the count
and the error (`none` is nil). -/
structure Sink (σ : Type) where
  Write : σ → List Byte → σ × Int × Option Error

/-- The function `writeHeader`: the state of the sink afterwards and the
returned error (`ok ()` is nil). -/
def writeHeader {σ : Type} (api : PropertiesAPI) (W : Sink σ) (w : σ) (p : Parameters) :
    σ × Result Unit :=
  match api.Verify p.Properties with
  | some err => (w, .error err)
  | none =>
    let b : List Byte := List.replicate 13 0
    let b := b.set 0 (api.Code p.Properties)
    if ¬ (0 ≤ p.DictCap ∧ p.DictCap ≤ MaxDictCap) then
      (w, .error (.Errorf "write LZMA header: DictCap %d out of range" p.DictCap))
    else
      match putUint32LE ((b.drop 1).take 4) (uint32 p.DictCap) with
      | none => (w, .panic "index out of range")
      | some s =>
        let b := b.take 1 ++ s ++ b.drop 5
        let l := if p.Size ≥ 0 then uint64 p.Size else noHeaderLen
        match putUint64LE (b.drop 5) l with
        | none => (w, .panic "index out of range")
        | some s =>
          let b := b.take 5 ++ s
          match W.Write w b with
          | (w', _, none) => (w', .ok ())
          | (w', _, some err) => (w', .error err)

/-! ## Reference notions used in the statements -/

/-- The little-endian bytes of `x`, `n` of them, least significant first. -/
def leBytes : Nat → Nat → List Byte
  | 0, _ => []
  | n + 1, x => byte x :: leBytes n (x / 256)

/-- The number a list of bytes stands for, read little-endian. -/
def leValue : List Byte → Nat
  | [] => 0
  | b :: bs => b.val + 256 * leValue bs

/-- The thirteen bytes of the classic header of `p`: the properties code,
the dictionary capacity in four bytes and the size field in eight, the
size field being all ones when the size is negative. -/
def headerBytes (api : PropertiesAPI) (p : Parameters) : List Byte :=
  api.Code p.Properties ::
    (leBytes 4 (uint32 p.DictCap) ++
      leBytes 8 (if p.Size ≥ 0 then uint64 p.Size else noHeaderLen))

/-- What `writeHeader` returns after the sink's `Write` returned `r`. -/
def afterWrite {σ : Type} (r : σ × Int × Option Error) : σ × Result Unit :=
  match r with
  | (w', _, none) => (w', .ok ())
  | (w', _, some err) => (w', .error err)

/-- The range of `int` and `int64`. -/
def isInt64 (x : Int) : Prop := -2 ^ 63 ≤ x ∧ x < 2 ^ 63

instance (x : Int) : Decidable (isInt64 x) := by unfold isInt64; infer_instance

/-- The values a `Parameters` can hold: every integer field in the range of
its type. -/
def Parameters.wellTyped (p : Parameters) : Prop :=
  isInt64 p.DictCap ∧ isInt64 p.Size ∧ isInt64 p.BufSize

instance (p : Parameters) : Decidable p.wellTyped := by
  unfold Parameters.wellTyped; infer_instance

/-- A sink that records every `Write` call and fails with `fail`. -/
def recorder (fail : Option Error) : Sink (List (List Byte)) where
  Write s b := (s ++ [b], (if fail.isSome then 0 else (b.length : Int)), fail)

/-- Modelled from the spec: the methods `Verify` and `Code` of `Properties`
and the function `PropertiesForCode` are declared in a file of the package
that is not among the sources. The spec gives the byte `(pb*5 + lp)*9 + lc`
as the code, recoverable from the byte, with every field in a small range;
the ranges taken here are the digits of that packing, `lc ≤ 8`, `lp ≤ 4`,
`pb ≤ 4`, and a byte above the largest code is rejected. -/
def classicProperties : PropertiesAPI where
  Verify p :=
    if ¬ (0 ≤ p.LC ∧ p.LC ≤ 8) then some (.New "lzma: lc out of range")
    else if ¬ (0 ≤ p.LP ∧ p.LP ≤ 4) then some (.New "lzma: lp out of range")
    else if ¬ (0 ≤ p.PB ∧ p.PB ≤ 4) then some (.New "lzma: pb out of range")
    else none
  Code p := byte (uint64 ((p.PB * 5 + p.LP) * 9 + p.LC))
  PropertiesForCode code :=
    if code.val > 224 then .error (.New "lzma: invalid properties code")
    else .ok { LC := ((code.val % 9 : Nat) : Int), LP := ((code.val / 9 % 5 : Nat) : Int),
               PB := ((code.val / 45 : Nat) : Int) }

/-! ## writer.go -/

/-- Arithmetic of `int64` (and of `int`, taken as 64 bits wide): the result
of an operation, reduced to the range of the type. -/
def wrap64 (x : Int) : Int := toInt64 (x % 2 ^ 64).toNat

/-- The collaborators of `Writer` that are declared elsewhere in the package
or in the library, as parameters of the embedding: the constant
`maxMatchLen`; the error values `ErrNoSpace` and `errSize`; the byte writer
`w.bw` seen as an `io.Writer`, over the state `Out` of the output with all
that lies behind it, and `Flush` of the `bufio.Writer`; `NewState`,
`NewEncoderDict` and `NewEncoder` (which returns the new output state, the
encoder pointer, `none` being nil, and the error), its last argument telling
whether the flag `EOSMarker` is set; and of an encoder, over its state
`Encoder`: `Write`, `Close`, `Compressed()` and `Dict.Buffered()`. -/
structure Collaborators where
  Out : Type
  State : Type
  Dict : Type
  Encoder : Type
  maxMatchLen : Int
  ErrNoSpace : Error
  errSize : Error
  bw : Sink Out
  Flush : Out → Out × Option Error
  NewState : Properties → State
  NewEncoderDict : Int → Int → Except Error Dict
  NewEncoder : Out → State → Dict → Bool → Out × Option Encoder × Option Error
  Write : Encoder → Out → List Byte → Encoder × Out × Int × Option Error
  Close : Encoder → Out → Encoder × Out × Option Error
  Compressed : Encoder → Int
  Buffered : Encoder → Int

/-- The type `Writer`. The field `bw` is the output state that the
operations pass along; `buf` tells whether `w.buf` is non-nil; `e` is the
encoder behind the pointer `w.e`, `none` being nil. -/
structure Writer (C : Collaborators) where
  Properties : lzma.Properties
  DictCap : Int
  Size : Int
  BufSize : Int
  EOSMarker : Bool
  buf : Bool
  e : Option C.Encoder

/-- An `error` as the outcome of a call: `none`, that is nil, is `ok ()`. -/
def errorResult : Option Error → Result Unit
  | none => .ok ()
  | some err => .error err

/-- The method `(w *Writer) writeHeader()`: the output state afterwards and
the returned error. -/
def Writer.writeHeader (api : PropertiesAPI) (C : Collaborators) (w : Writer C) (s : C.Out) :
    C.Out × Result Unit :=
  let p : List Byte := List.replicate 13 0
  let p := p.set 0 (api.Code w.Properties)
  match putUint32LE ((p.drop 1).take 4) (uint32 w.DictCap) with
  | none => (s, .panic "index out of range")
  | some t =>
    let p := p.take 1 ++ t ++ p.drop 5
    let l := if w.Size ≥ 0 then uint64 w.Size else noHeaderLen
    match putUint64LE (p.drop 5) l with
    | none => (s, .panic "index out of range")
    | some t =>
      let p := p.take 5 ++ t
      match C.bw.Write s p with
      | (s', _, err) => (s', errorResult err)

/-- The method `(w *Writer) init()`: the writer and the output state
afterwards, and the returned error. -/
def Writer.init (api : PropertiesAPI) (C : Collaborators) (w : Writer C) (s : C.Out) :
    (Writer C × C.Out) × Result Unit :=
  if w.e.isSome then ((w, s), .panic "w.e expected to be nil")
  else
    match api.Verify w.Properties with
    | some err => ((w, s), .error err)
    | none =>
      if ¬ (MinDictCap ≤ w.DictCap ∧ w.DictCap ≤ MaxDictCap) then
        ((w, s), .error (.New "lzma.Writer: DictCap out of range"))
      else
        let w : Writer C := if w.Size < 0 then { w with EOSMarker := true } else w
        if ¬ (C.maxMatchLen ≤ w.BufSize) then
          ((w, s), .error (.New "lzma.Writer: lookahead buffer size too small"))
        else
          let state := C.NewState w.Properties
          match C.NewEncoderDict w.DictCap (wrap64 (w.DictCap + w.BufSize)) with
          | .error err => ((w, s), .error err)
          | .ok dict =>
            let flags := w.EOSMarker
            match C.NewEncoder s state dict flags with
            | (s', e, some err) => (({ w with e := e }, s'), .error err)
            | (s', e, none) =>
              let w : Writer C := { w with e := e }
              match Writer.writeHeader api C w s' with
              | (s'', err) => ((w, s''), err)

/-- The first statement of `Write` and of `Close`: `init` when `w.e` is nil,
nothing otherwise. -/
def Writer.initIfNil (api : PropertiesAPI) (C : Collaborators) (w : Writer C) (s : C.Out) :
    (Writer C × C.Out) × Result Unit :=
  if w.e.isNone then Writer.init api C w s else ((w, s), .ok ())

/-- The statements of `Write` after the initialisation: the clipping of `p`
to what the declared size leaves, and the call of the encoder. The value is
the pair `(n, err)` that `Write` returns. -/
def Writer.writeBody (C : Collaborators) (w : Writer C) (s : C.Out) (p : List Byte) :
    (Writer C × C.Out) × Result (Int × Option Error) :=
  match w.e with
  | none => ((w, s), .panic "nil pointer dereference")
  | some e =>
    let clipped : List Byte × Option Error :=
      if w.Size ≥ 0 then
        let m := wrap64 (w.Size - wrap64 (C.Compressed e + C.Buffered e))
        let m := if m < 0 then 0 else m
        if m < (p.length : Int) then (p.take m.toNat, some C.ErrNoSpace) else (p, none)
      else (p, none)
    match C.Write e s clipped.1 with
    | (e', s', n, some werr) => (({ w with e := some e' }, s'), .ok (n, some werr))
    | (e', s', n, none) => (({ w with e := some e' }, s'), .ok (n, clipped.2))

/-- The method `(w *Writer) Write(p []byte) (n int, err error)`. -/
def Writer.Write (api : PropertiesAPI) (C : Collaborators) (w : Writer C) (s : C.Out)
    (p : List Byte) : (Writer C × C.Out) × Result (Int × Option Error) :=
  match Writer.initIfNil api C w s with
  | (st, .error err) => (st, .ok (0, some err))
  | (st, .panic msg) => (st, .panic msg)
  | ((w, s), .ok ()) => Writer.writeBody C w s p

/-- The statements of `Close` after the initialisation: the size check, the
close of the encoder and the flush of the buffering adapter. -/
def Writer.closeBody (C : Collaborators) (w : Writer C) (s : C.Out) :
    (Writer C × C.Out) × Result Unit :=
  match w.e with
  | none => ((w, s), .panic "nil pointer dereference")
  | some e =>
    if w.Size ≥ 0 ∧ wrap64 (C.Compressed e + C.Buffered e) ≠ w.Size then
      ((w, s), .error C.errSize)
    else
      match C.Close e s with
      | (e', s', err) =>
        let w : Writer C := { w with e := some e' }
        if w.buf then
          match C.Flush s' with
          | (s'', ferr) =>
            ((w, s''), errorResult (match err with | none => ferr | some err => some err))
        else ((w, s'), errorResult err)

/-- The method `(w *Writer) Close() error`. -/
def Writer.Close (api : PropertiesAPI) (C : Collaborators) (w : Writer C) (s : C.Out) :
    (Writer C × C.Out) × Result Unit :=
  match Writer.initIfNil api C w s with
  | (st, .error err) => (st, .error err)
  | (st, .panic msg) => (st, .panic msg)
  | ((w, s), .ok ()) => Writer.closeBody C w s

/-! ## Reference notions for the writer -/

/-- The count that `Write` and `Close` compare with the declared size:
`e.Compressed() + e.Dict.Buffered()`, as a number. -/
def processed (C : Collaborators) (e : C.Encoder) : Int := C.Compressed e + C.Buffered e

/-- The close of the encoder `e` followed by the flush of the buffering
adapter when there is one, the flush being made whatever the close
returned: the writer and the output state afterwards, and the error, which
is that of the close when it has one and that of the flush otherwise. -/
def closeAndFlush (C : Collaborators) (w : Writer C) (e : C.Encoder) (s : C.Out) :
    (Writer C × C.Out) × Result Unit :=
  if w.buf then
    (({ w with e := some (C.Close e s).1 }, (C.Flush (C.Close e s).2.1).1),
      errorResult (match (C.Close e s).2.2 with
        | none => (C.Flush (C.Close e s).2.1).2
        | some err => some err))
  else
    (({ w with e := some (C.Close e s).1 }, (C.Close e s).2.1), errorResult (C.Close e s).2.2)

/-- The byte count that a `Write` returned, 0 when it did not return. -/
def accepted : Result (Int × Option Error) → Int
  | .ok (n, _) => n
  | _ => 0

/-- A sequence of `Write` calls, one per element of `ps`: the writer and the
output state afterwards, and the sum of the returned counts. -/
def writeAll (api : PropertiesAPI) (C : Collaborators) :
    Writer C × C.Out → List (List Byte) → (Writer C × C.Out) × Int
  | st, [] => (st, 0)
  | st, p :: ps =>
    let r := Writer.Write api C st.1 st.2 p
    let rest := writeAll api C r.1 ps
    (rest.1, accepted r.2 + rest.2)

/-- What the caller of `Write` may rely on from an encoder: it accepts
between 0 and `len(p)` bytes, and its processed count grows by what it
accepted. -/
def encoderCounts (C : Collaborators) : Prop :=
  ∀ (e : C.Encoder) (s : C.Out) (p : List Byte),
    0 ≤ (C.Write e s p).2.2.1 ∧ (C.Write e s p).2.2.1 ≤ (p.length : Int) ∧
    processed C (C.Write e s p).1 = processed C e + (C.Write e s p).2.2.1

/-- What the caller of `NewEncoder` may rely on from a new encoder: its
processed count is a count in the range of `int64`. -/
def freshCounts (C : Collaborators) : Prop :=
  ∀ (s : C.Out) (st : C.State) (d : C.Dict) (f : Bool) (enc : C.Encoder),
    (C.NewEncoder s st d f).2.1 = some enc →
    0 ≤ processed C enc ∧ processed C enc < 2 ^ 63

/-- What the declared size of a writer leaves to be written: the size less
the processed count of its encoder, and not less than 0; the whole size
while there is no encoder. -/
def Writer.remaining {C : Collaborators} (w : Writer C) : Int :=
  match w.e with
  | none => w.Size
  | some enc => if w.Size - processed C enc ≤ 0 then 0 else w.Size - processed C enc

/-- The `Parameters` with the properties, dictionary capacity and size of a
writer. -/
def Writer.parameters {C : Collaborators} (w : Writer C) : Parameters :=
  { Properties := w.Properties, DictCap := w.DictCap, Size := w.Size, BufSize := w.BufSize,
    EOSMarker := w.EOSMarker }

/-- Modelled from the spec: the encoder, its dictionary and state, the
constant `maxMatchLen` and the error values `ErrNoSpace` and `errSize` are
declared in files of the package that are not among the sources, and the
spec gives their interface only. This is the simplest encoder with that
interface: it accepts every byte it is given and keeps it buffered, counts
nothing as compressed, and hands the buffered bytes to the output in one
write when it is closed; the dictionary needs a positive capacity and a
buffer at least as large; the output records its writes, and a flush does
nothing. -/
def storing : Collaborators where
  Out := List (List Byte)
  State := Properties
  Dict := Int × Int
  Encoder := List Byte
  maxMatchLen := 273
  ErrNoSpace := .New "insufficient space"
  errSize := .New "lzma: wrong uncompressed data size"
  bw := recorder none
  Flush s := (s, none)
  NewState props := props
  NewEncoderDict dictCap bufCap :=
    if 1 ≤ dictCap ∧ dictCap ≤ bufCap then .ok (dictCap, bufCap)
    else .error (.New "lzma: dictionary capacity out of range")
  NewEncoder s _ _ _ := (s, some [], none)
  Write e s p := (e ++ p, s, (p.length : Int), none)
  Close e s := (e, s ++ [e], none)
  Compressed _ := 0
  Buffered e := (e.length : Int)

/-- The function `NewWriter`, as the writer it returns: the default
parameters, no encoder yet, and a buffering adapter exactly when the output
is no `io.ByteWriter` (`byteWriter` is the outcome of the type assertion). -/
def NewWriter (C : Collaborators) (byteWriter : Bool) : Writer C :=
  { Properties := { LC := 3, LP := 0, PB := 2 }, DictCap := 8 * 1024 * 1024, Size := -1,
    BufSize := 4096, EOSMarker := true, buf := !byteWriter, e := none }

/-! ## Theorems: probability primitive -/

theorem dec_eq (p : Nat) (hp : p < 2 ^ 16) : dec p = p - p / 32 := by
  simp only [dec, sub16, movebits, Nat.shiftRight_eq_div_pow]
  omega

theorem inc_eq (p : Nat) (hp : p ≤ 2048) : inc p = p + (2048 - p) / 32 := by
  simp only [inc, add16, sub16, movebits, probbits, Nat.shiftRight_eq_div_pow,
    Nat.shiftLeft_eq]
  omega

theorem dec_mem_band (p : Nat) (h1 : 1 ≤ p) (h2 : p ≤ 2047) : 1 ≤ dec p ∧ dec p ≤ 2047 := by
  rw [dec_eq p (by omega)]
  omega

theorem inc_mem_band (p : Nat) (h1 : 1 ≤ p) (h2 : p ≤ 2047) : 1 ≤ inc p ∧ inc p ≤ 2047 := by
  rw [inc_eq p (by omega)]
  omega

theorem apply_mem_band (u : Update) (p : Nat) (h1 : 1 ≤ p) (h2 : p ≤ 2047) :
    1 ≤ u.apply p ∧ u.apply p ≤ 2047 := by
  cases u
  · exact dec_mem_band p h1 h2
  · exact inc_mem_band p h1 h2

theorem applyUpdates_mem_band (us : List Update) :
    ∀ p : Nat, 1 ≤ p → p ≤ 2047 → 1 ≤ applyUpdates us p ∧ applyUpdates us p ≤ 2047 := by
  induction us with
  | nil => intro p h1 h2; exact ⟨h1, h2⟩
  | cons u us ih =>
    intro p h1 h2
    have h := apply_mem_band u p h1 h2
    exact ih (u.apply p) h.1 h.2

theorem iterate_dec_pos (n : Nat) : ∀ p : Nat, 1 ≤ p → p < 2 ^ 16 →
    1 ≤ dec^[n] p ∧ dec^[n] p < 2 ^ 16 := by
  induction n with
  | zero => intro p h1 h2; exact ⟨h1, h2⟩
  | succ n ih =>
    intro p h1 h2
    rw [Function.iterate_succ_apply]
    have h := dec_eq p h2
    exact ih (dec p) (by omega) (by omega)

/-- C5. For a probability value `p` in `[0, 2047]` no step of `dec` or `inc`
wraps in 16-bit arithmetic, `dec` gives `p - floor(p / 32)` and `inc` gives
`p + floor((2048 - p) / 32)`; so `p - (p >> 5) ≤ dec p ≤ p` and
`p ≤ inc p ≤ p + ((2048 - p) >> 5)`. -/
theorem prob_update_formulas (p : Nat) (hp : p ≤ 2047) :
    (p >>> movebits ≤ p ∧ p ≤ 1 <<< probbits ∧
      p + ((1 <<< probbits - p) >>> movebits) < 2 ^ 16) ∧
    dec p = p - p / 32 ∧ inc p = p + (2048 - p) / 32 ∧
    (p - (p >>> 5) ≤ dec p ∧ dec p ≤ p) ∧
    (p ≤ inc p ∧ inc p ≤ p + ((2048 - p) >>> 5)) := by
  rw [dec_eq p (by omega), inc_eq p (by omega)]
  simp only [movebits, probbits, Nat.shiftRight_eq_div_pow, Nat.shiftLeft_eq]
  simp only [true_and]
  omega

theorem prob_update_formulas_witness :
    (1024 : Nat) ≤ 2047 ∧ dec 1024 = 992 ∧ inc 1024 = 1056 := by
  have h := prob_update_formulas 1024 (by decide)
  exact ⟨by decide, h.2.1, h.2.2.1⟩

/-- C6. The set `[1, 2047]` is closed under `dec` and `inc`; from a start in
it every finite sequence of updates stays in it, so inside `[0, 2^11)` and
never at `0` or at `2^11`; repeated `dec` from a positive start never
reaches `0`; and `probInit` is `2^10 = 1024`. -/
theorem prob_range_invariant (p : Nat) (h1 : 1 ≤ p) (h2 : p ≤ 2047) :
    (1 ≤ dec p ∧ dec p ≤ 2047) ∧ (1 ≤ inc p ∧ inc p ≤ 2047) ∧
    (∀ us : List Update,
      applyUpdates us p < 2 ^ 11 ∧ applyUpdates us p ≠ 0 ∧ applyUpdates us p ≠ 2 ^ 11) ∧
    (∀ n : Nat, dec^[n] p ≠ 0) ∧
    probInit = 2 ^ 10 ∧ probInit = 1024 := by
  refine ⟨dec_mem_band p h1 h2, inc_mem_band p h1 h2, ?_, ?_, by decide, by decide⟩
  · intro us
    have h := applyUpdates_mem_band us p h1 h2
    omega
  · intro n
    have h := iterate_dec_pos n p h1 (by omega)
    omega

theorem prob_range_invariant_witness :
    applyUpdates [Update.dec, Update.dec, Update.inc] probInit ≠ 0 ∧ dec^[3] probInit ≠ 0 := by
  have h := prob_range_invariant probInit (by decide) (by decide)
  exact ⟨(h.2.2.1 _).2.1, h.2.2.2.1 3⟩

/-- C7, as stated, fails: 31 and 2017 are probability values in `[0, 2^11)`,
`dec` leaves 31 where it is (`31 >> 5 = 0`) and `inc` leaves 2017 where it
is (`(2048 - 2017) >> 5 = 0`), so not every update moves the value. -/
theorem prob_update_not_strict :
    (31 < 2 ^ 11 ∧ dec 31 = 31) ∧ (2017 < 2 ^ 11 ∧ inc 2017 = 2017) ∧
    ¬ (∀ p : Nat, p < 2 ^ 11 → dec p < p ∧ p < inc p) := by
  refine ⟨by decide, by decide, ?_⟩
  intro h
  have h31 := (h 31 (by decide)).1
  exact absurd h31 (by decide)

/-- C7, amended. For a probability value `p` in `[0, 2^11)`, `dec` never
increases `p` and decreases it exactly when `p ≥ 32`; `inc` never decreases
`p` and increases it exactly when `p ≤ 2016`. -/
theorem prob_update_moves (p : Nat) (hp : p < 2 ^ 11) :
    dec p ≤ p ∧ (dec p < p ↔ 32 ≤ p) ∧ p ≤ inc p ∧ (p < inc p ↔ p ≤ 2016) := by
  rw [dec_eq p (by omega), inc_eq p (by omega)]
  omega

theorem prob_update_moves_witness :
    dec 32 < 32 ∧ 2016 < inc 2016 ∧ dec 31 = 31 ∧ inc 2017 = 2017 := by
  have h := prob_update_moves 32 (by decide)
  have h' := prob_update_moves 2016 (by decide)
  exact ⟨h.2.1.2 (by decide), h'.2.2.2.2 (by decide), by decide, by decide⟩

/-! ## Theorems: bound -/

theorem boundExact_le (p r : Nat) (hp : p ≤ 2047) : boundExact p r ≤ r := by
  unfold boundExact probbits
  rw [Nat.shiftRight_eq_div_pow]
  calc r / 2 ^ 11 * p ≤ r / 2 ^ 11 * 2 ^ 11 := Nat.mul_le_mul_left _ (by omega)
    _ ≤ r := Nat.div_mul_le_self r (2 ^ 11)

theorem boundExact_lt (p r : Nat) (hp : p ≤ 2047) (hr : r < 2 ^ 32) :
    boundExact p r < 2 ^ 32 := by
  have h := boundExact_le p r hp
  omega

theorem bound_eq (p r : Nat) (hp : p ≤ 2047) (hr : r < 2 ^ 32) :
    bound p r = r / 2 ^ 11 * p := by
  unfold bound
  rw [Nat.mod_eq_of_lt (boundExact_lt p r hp hr)]
  simp [boundExact, probbits, Nat.shiftRight_eq_div_pow]

/-- C8. For a probability value `p` in `[0, 2047]` and a 32-bit range `r`,
the product `(r >> 11) * p` fits 32 bits, `bound` returns it, and it is at
most `r`. -/
theorem bound_le_range (p r : Nat) (hp : p ≤ 2047) (hr : r < 2 ^ 32) :
    boundExact p r < 2 ^ 32 ∧ bound p r = r / 2 ^ 11 * p ∧ bound p r ≤ r := by
  refine ⟨boundExact_lt p r hp hr, bound_eq p r hp hr, ?_⟩
  have h := boundExact_le p r hp
  unfold bound
  rw [Nat.mod_eq_of_lt (boundExact_lt p r hp hr)]
  exact h

theorem bound_le_range_witness :
    bound 2047 (2 ^ 32 - 1) = 4292868097 ∧ bound 2047 (2 ^ 32 - 1) ≤ 2 ^ 32 - 1 := by
  have h := bound_le_range 2047 (2 ^ 32 - 1) (by decide) (by decide)
  exact ⟨by rw [h.2.1]; norm_num, h.2.2⟩

/-- C9. For probability values `p ≤ q` in `[0, 2047]` and 32-bit ranges
`r ≤ s`, `bound p r ≤ bound q r` and `bound p r ≤ bound p s`. -/
theorem bound_monotone (p q r s : Nat) (hpq : p ≤ q) (hq : q ≤ 2047)
    (hrs : r ≤ s) (hs : s < 2 ^ 32) :
    bound p r ≤ bound q r ∧ bound p r ≤ bound p s := by
  have hp : p ≤ 2047 := by omega
  have hr : r < 2 ^ 32 := by omega
  rw [bound_eq p r hp hr, bound_eq q r hq hr, bound_eq p s hp hs]
  exact ⟨Nat.mul_le_mul_left _ hpq,
    Nat.mul_le_mul_right _ (Nat.div_le_div_right hrs)⟩

theorem bound_monotone_witness :
    bound 1024 4096 ≤ bound 2047 4096 ∧ bound 1024 4096 ≤ bound 1024 (2 ^ 32 - 1) := by
  exact bound_monotone 1024 2047 4096 (2 ^ 32 - 1) (by decide) (by decide) (by decide) (by decide)

/-! ## Theorems: probability tree -/

theorem shiftOne_eq (bits : Int) (h1 : 1 ≤ bits) (h2 : bits ≤ 62) :
    shiftOne bits = ((2 ^ bits.toNat : Nat) : Int) := by
  have hn : bits.toNat ≤ 62 := by omega
  have hpow : 2 ^ bits.toNat ≤ 2 ^ 62 := Nat.pow_le_pow_right (by decide) hn
  have hmod : (1 <<< bits.toNat) % 2 ^ 64 = 2 ^ bits.toNat := by
    rw [Nat.shiftLeft_eq, Nat.one_mul]
    exact Nat.mod_eq_of_lt (by omega)
  unfold shiftOne toInt64
  rw [hmod, if_pos (by omega)]

/-- C10, as stated, fails: with a 64-bit `int` the length `1 << uint(64)` is
0, so `makeProbTree(64)` returns a tree with an empty table, not one of
`2^64` slots; the allocator is that of a 64-bit platform, with its limit of
`2^47` slots. -/
theorem makeProbTree_64_empty :
    makeProbTree (2 ^ 47) 64 = Result.ok { bits := 64, probs := [] } ∧
    ¬ (∃ t : probTree, makeProbTree (2 ^ 47) 64 = Result.ok t ∧ t.bits = 64 ∧
        t.probs.length = 2 ^ 64) := by
  have h : makeProbTree (2 ^ 47) 64 = Result.ok { bits := 64, probs := [] } := by decide
  refine ⟨h, ?_⟩
  rintro ⟨t, ht, -, hlen⟩
  rw [h] at ht
  injection ht with ht
  subst ht
  simp at hlen

/-- C10, amended. `makeProbTree(bits)` panics for every `bits < 1`. For
`1 ≤ bits ≤ 62`: when the allocator provides `2^bits` slots, it returns a
tree whose `bits` field is `bits` and whose table has exactly `2^bits`
slots, each `probInit = 1024`; when `2^bits` exceeds what the allocator
provides, `make` panics. With room for eight slots, `bits = 3` gives eight
slots of 1024. -/
theorem makeProbTree_spec (maxLen : Nat) (bits : Int) :
    (bits < 1 → makeProbTree maxLen bits = Result.panic "bits must be positive") ∧
    (1 ≤ bits → bits ≤ 62 → 2 ^ bits.toNat ≤ maxLen →
      makeProbTree maxLen bits =
        Result.ok { bits := bits, probs := List.replicate (2 ^ bits.toNat) probInit }) ∧
    (1 ≤ bits → bits ≤ 62 → maxLen < 2 ^ bits.toNat →
      makeProbTree maxLen bits = Result.panic "makeslice: len out of range") ∧
    probInit = 1024 ∧
    (8 ≤ maxLen →
      makeProbTree maxLen 3 =
        Result.ok { bits := 3, probs := [1024, 1024, 1024, 1024, 1024, 1024, 1024, 1024] }) := by
  have key : ∀ b : Int, 1 ≤ b → b ≤ 62 → 2 ^ b.toNat ≤ maxLen →
      makeProbTree maxLen b =
        Result.ok { bits := b, probs := List.replicate (2 ^ b.toNat) probInit } := by
    intro b h1 h2 h3
    have hs := shiftOne_eq b h1 h2
    have h0 : ¬ b < 1 := by omega
    generalize 2 ^ b.toNat = m at hs h3 ⊢
    have hok : ¬ ((m : Int) < 0 ∨ (maxLen : Int) < (m : Int)) := by omega
    simp only [makeProbTree, h0, if_false, hs, hok, Int.toNat_ofNat, List.map_replicate]
  refine ⟨?_, key bits, ?_, by decide, ?_⟩
  · intro h
    simp [makeProbTree, h]
  · intro h1 h2 h3
    have hs := shiftOne_eq bits h1 h2
    have h0 : ¬ bits < 1 := by omega
    generalize 2 ^ bits.toNat = m at hs h3 ⊢
    have hbad : (m : Int) < 0 ∨ (maxLen : Int) < (m : Int) := by omega
    simp only [makeProbTree, h0, if_false, hs, hbad, if_true]
  · intro h8
    have h := key 3 (by decide) (by decide) (by simpa using h8)
    rw [h]
    decide

theorem makeProbTree_spec_witness :
    makeProbTree (2 ^ 47) 0 = Result.panic "bits must be positive" ∧
    makeProbTree (2 ^ 47) 4 = Result.ok { bits := 4, probs := List.replicate (2 ^ 4) probInit } ∧
    makeProbTree (2 ^ 47) 48 = Result.panic "makeslice: len out of range" ∧
    makeProbTree (2 ^ 47) 62 = Result.panic "makeslice: len out of range" :=
  ⟨(makeProbTree_spec (2 ^ 47) 0).1 (by decide),
    (makeProbTree_spec (2 ^ 47) 4).2.1 (by decide) (by decide) (by decide),
    (makeProbTree_spec (2 ^ 47) 48).2.2.1 (by decide) (by decide) (by decide),
    (makeProbTree_spec (2 ^ 47) 62).2.2.1 (by decide) (by decide) (by decide)⟩

/-! ## Theorems: little-endian helpers and the header codec -/

theorem or_eq_add_of_dvd (a b i : Nat) (hd : 2 ^ i ∣ a) (hb : b < 2 ^ i) :
    a ||| b = a + b := by
  obtain ⟨k, rfl⟩ := hd
  exact (Nat.mul_add_lt_is_or hb k).symm

theorem uint32LE_eq (b0 b1 b2 b3 : Byte) (rest : List Byte) :
    uint32LE (b0 :: b1 :: b2 :: b3 :: rest) =
      some (b0.val + 256 * (b1.val + 256 * (b2.val + 256 * b3.val))) := by
  have h0 := b0.isLt
  have h1 := b1.isLt
  have h2 := b2.isLt
  have h3 := b3.isLt
  simp only [uint32LE, Nat.shiftLeft_eq]
  rw [Nat.mod_eq_of_lt (by omega : b3.val * 2 ^ 24 < 2 ^ 32),
    Nat.mod_eq_of_lt (by omega : b2.val * 2 ^ 16 < 2 ^ 32),
    Nat.mod_eq_of_lt (by omega : b1.val * 2 ^ 8 < 2 ^ 32),
    or_eq_add_of_dvd (b3.val * 2 ^ 24) _ 24 (by omega) (by omega),
    or_eq_add_of_dvd (b3.val * 2 ^ 24 + _) _ 16 (by omega) (by omega),
    or_eq_add_of_dvd (b3.val * 2 ^ 24 + _ + _) _ 8 (by omega) (by omega)]
  congr 1
  omega

theorem uint64LE_eq (b0 b1 b2 b3 b4 b5 b6 b7 : Byte) (rest : List Byte) :
    uint64LE (b0 :: b1 :: b2 :: b3 :: b4 :: b5 :: b6 :: b7 :: rest) =
      some (b0.val + 256 * (b1.val + 256 * (b2.val + 256 * (b3.val + 256 * (b4.val +
        256 * (b5.val + 256 * (b6.val + 256 * b7.val))))))) := by
  have h0 := b0.isLt
  have h1 := b1.isLt
  have h2 := b2.isLt
  have h3 := b3.isLt
  have h4 := b4.isLt
  have h5 := b5.isLt
  have h6 := b6.isLt
  have h7 := b7.isLt
  simp only [uint64LE, Nat.shiftLeft_eq]
  rw [Nat.mod_eq_of_lt (by omega : b7.val * 2 ^ 56 < 2 ^ 64),
    Nat.mod_eq_of_lt (by omega : b6.val * 2 ^ 48 < 2 ^ 64),
    Nat.mod_eq_of_lt (by omega : b5.val * 2 ^ 40 < 2 ^ 64),
    Nat.mod_eq_of_lt (by omega : b4.val * 2 ^ 32 < 2 ^ 64),
    Nat.mod_eq_of_lt (by omega : b3.val * 2 ^ 24 < 2 ^ 64),
    Nat.mod_eq_of_lt (by omega : b2.val * 2 ^ 16 < 2 ^ 64),
    Nat.mod_eq_of_lt (by omega : b1.val * 2 ^ 8 < 2 ^ 64),
    or_eq_add_of_dvd (b7.val * 2 ^ 56) _ 56 (by omega) (by omega),
    or_eq_add_of_dvd (b7.val * 2 ^ 56 + _) _ 48 (by omega) (by omega),
    or_eq_add_of_dvd (b7.val * 2 ^ 56 + _ + _) _ 40 (by omega) (by omega),
    or_eq_add_of_dvd (b7.val * 2 ^ 56 + _ + _ + _) _ 32 (by omega) (by omega),
    or_eq_add_of_dvd (b7.val * 2 ^ 56 + _ + _ + _ + _) _ 24 (by omega) (by omega),
    or_eq_add_of_dvd (b7.val * 2 ^ 56 + _ + _ + _ + _ + _) _ 16 (by omega) (by omega),
    or_eq_add_of_dvd (b7.val * 2 ^ 56 + _ + _ + _ + _ + _ + _) _ 8 (by omega) (by omega)]
  congr 1
  omega

theorem byte_shiftRight (x : Nat) :
    byte (x >>> 8) = byte (x / 256) ∧ byte (x >>> 16) = byte (x / 256 / 256) ∧
    byte (x >>> 24) = byte (x / 256 / 256 / 256) ∧
    byte (x >>> 32) = byte (x / 256 / 256 / 256 / 256) ∧
    byte (x >>> 40) = byte (x / 256 / 256 / 256 / 256 / 256) ∧
    byte (x >>> 48) = byte (x / 256 / 256 / 256 / 256 / 256 / 256) ∧
    byte (x >>> 56) = byte (x / 256 / 256 / 256 / 256 / 256 / 256 / 256) := by
  simp only [Nat.shiftRight_eq_div_pow, Nat.div_div_eq_div_mul]
  norm_num

theorem writeHeader_eq {σ : Type} (api : PropertiesAPI) (W : Sink σ) (w : σ) (p : Parameters)
    (hv : api.Verify p.Properties = none) (hd : 0 ≤ p.DictCap ∧ p.DictCap ≤ MaxDictCap) :
    writeHeader api W w p = afterWrite (W.Write w (headerBytes api p)) := by
  obtain ⟨e1, e2, e3, e4, e5, e6, e7⟩ :=
    byte_shiftRight (if p.Size ≥ 0 then uint64 p.Size else noHeaderLen)
  obtain ⟨f1, f2, f3, -⟩ := byte_shiftRight (uint32 p.DictCap)
  simp only [writeHeader, hv, hd, and_self, not_true_eq_false, if_false, List.replicate,
    List.set, List.drop, List.take, putUint32LE, putUint64LE, List.cons_append, List.nil_append,
    List.append_eq, headerBytes, leBytes, e1, e2, e3, e4, e5, e6, e7, f1, f2, f3, afterWrite]

theorem leBytes_length (n : Nat) : ∀ x : Nat, (leBytes n x).length = n := by
  induction n with
  | zero => intro x; rfl
  | succ n ih => intro x; simp [leBytes, ih]

theorem leValue_leBytes (n : Nat) : ∀ x : Nat, leValue (leBytes n x) = x % 256 ^ n := by
  induction n with
  | zero => intro x; simp [leBytes, leValue, Nat.mod_one]
  | succ n ih =>
    intro x
    simp only [leBytes, leValue, ih, byte]
    rw [Nat.pow_succ, Nat.mul_comm (256 ^ n) 256, Nat.mod_mul]

theorem toInt64_of_lt (x : Nat) (h : x < 2 ^ 63) : toInt64 x = (x : Int) := by
  unfold toInt64
  have hm : x % 2 ^ 64 = x := Nat.mod_eq_of_lt (by omega)
  rw [hm, if_pos h]

theorem toInt64_neg (x : Nat) (h1 : 2 ^ 63 ≤ x) (h2 : x < 2 ^ 64) : toInt64 x < 0 := by
  unfold toInt64
  have hm : x % 2 ^ 64 = x := Nat.mod_eq_of_lt h2
  rw [hm, if_neg (by omega)]
  omega

theorem leValue4_lt (c0 c1 c2 c3 : Byte) : leValue [c0, c1, c2, c3] < 2 ^ 32 := by
  have h0 := c0.isLt
  have h1 := c1.isLt
  have h2 := c2.isLt
  have h3 := c3.isLt
  simp only [leValue]
  omega

theorem leValue8_lt (s0 s1 s2 s3 s4 s5 s6 s7 : Byte) :
    leValue [s0, s1, s2, s3, s4, s5, s6, s7] < 2 ^ 64 := by
  have h0 := s0.isLt
  have h1 := s1.isLt
  have h2 := s2.isLt
  have h3 := s3.isLt
  have h4 := s4.isLt
  have h5 := s5.isLt
  have h6 := s6.isLt
  have h7 := s7.isLt
  simp only [leValue]
  omega

/-- The result of `readHeader` on a stream of at least thirteen bytes, in
terms of the little-endian values of the two integer fields. -/
theorem readHeader_eq (api : PropertiesAPI) (b0 c0 c1 c2 c3 s0 s1 s2 s3 s4 s5 s6 s7 : Byte)
    (tail : List Byte) (e : Error) :
    readHeader api
        ⟨b0 :: c0 :: c1 :: c2 :: c3 :: s0 :: s1 :: s2 :: s3 :: s4 :: s5 :: s6 :: s7 :: tail, e⟩ =
      match api.PropertiesForCode b0 with
      | .error err => Result.error err
      | .ok props =>
        if leValue [s0, s1, s2, s3, s4, s5, s6, s7] = 2 ^ 64 - 1 then
          Result.ok { Properties := props, DictCap := (leValue [c0, c1, c2, c3] : Int),
                      Size := -1, BufSize := (leValue [c0, c1, c2, c3] : Int),
                      EOSMarker := true }
        else if leValue [s0, s1, s2, s3, s4, s5, s6, s7] < 2 ^ 63 then
          Result.ok { Properties := props, DictCap := (leValue [c0, c1, c2, c3] : Int),
                      Size := (leValue [s0, s1, s2, s3, s4, s5, s6, s7] : Int),
                      BufSize := (leValue [c0, c1, c2, c3] : Int), EOSMarker := false }
        else
          Result.error
            (.New "LZMA header: uncompressed length in header  out of int64 range") := by
  have hc := leValue4_lt c0 c1 c2 c3
  have hs := leValue8_lt s0 s1 s2 s3 s4 s5 s6 s7
  have hcv : leValue [c0, c1, c2, c3] =
      c0.val + 256 * (c1.val + 256 * (c2.val + 256 * c3.val)) := by simp [leValue]
  have hsv : leValue [s0, s1, s2, s3, s4, s5, s6, s7] =
      s0.val + 256 * (s1.val + 256 * (s2.val + 256 * (s3.val + 256 * (s4.val +
        256 * (s5.val + 256 * (s6.val + 256 * s7.val)))))) := by simp [leValue]
  have hlen : 13 ≤ (b0 :: c0 :: c1 :: c2 :: c3 :: s0 :: s1 :: s2 :: s3 :: s4 :: s5 :: s6 ::
      s7 :: tail).length := by simp
  simp only [readHeader, ReadFull, hlen, if_true, List.take, List.drop, uint32LE_eq, uint64LE_eq]
  rw [← hcv, ← hsv]
  clear hcv hsv
  generalize leValue [c0, c1, c2, c3] = C at hc ⊢
  generalize leValue [s0, s1, s2, s3, s4, s5, s6, s7] = S at hs ⊢
  cases api.PropertiesForCode b0 with
  | error err => rfl
  | ok props =>
    have hC : toInt64 C = (C : Int) := toInt64_of_lt C (by omega)
    have hnn : ¬ ((C : Int) < 0) := by omega
    have hno : noHeaderLen = 2 ^ 64 - 1 := by decide
    simp only [hC, hnn, if_false, hno]
    by_cases h1 : S = 2 ^ 64 - 1
    · simp only [h1, if_true]
    · simp only [h1, if_false]
      by_cases h2 : S < 2 ^ 63
      · have hnn2 : ¬ ((S : Int) < 0) := by omega
        simp only [toInt64_of_lt S h2, hnn2, h2, if_true, if_false]
      · have hneg := toInt64_neg S (by omega) hs
        simp only [hneg, h2, if_true, if_false]

theorem MinDictCap_eq : MinDictCap = 4096 := by decide

theorem MaxDictCap_eq : MaxDictCap = 4294967295 := by decide

theorem noHeaderLen_eq : noHeaderLen = 2 ^ 64 - 1 := by decide

theorem leValue_leBytes4 (x : Nat) :
    leValue [byte x, byte (x / 256), byte (x / 256 / 256), byte (x / 256 / 256 / 256)] =
      x % 2 ^ 32 := by
  have h := leValue_leBytes 4 x
  simpa only [leBytes] using h

theorem leValue_leBytes8 (x : Nat) :
    leValue [byte x, byte (x / 256), byte (x / 256 / 256), byte (x / 256 / 256 / 256),
      byte (x / 256 / 256 / 256 / 256), byte (x / 256 / 256 / 256 / 256 / 256),
      byte (x / 256 / 256 / 256 / 256 / 256 / 256),
      byte (x / 256 / 256 / 256 / 256 / 256 / 256 / 256)] = x % 2 ^ 64 := by
  have h := leValue_leBytes 8 x
  simpa only [leBytes] using h

theorem headerBytes_length (api : PropertiesAPI) (p : Parameters) :
    (headerBytes api p).length = 13 := by
  simp [headerBytes, leBytes_length]

/-- The result of `readHeader` on the header bytes of `p`, followed by
anything. -/
theorem readHeader_headerBytes (api : PropertiesAPI) (p : Parameters) (tail : List Byte)
    (e : Error) :
    readHeader api ⟨headerBytes api p ++ tail, e⟩ =
      match api.PropertiesForCode (api.Code p.Properties) with
      | .error err => Result.error err
      | .ok props =>
        if (if p.Size ≥ 0 then uint64 p.Size else noHeaderLen) % 2 ^ 64 = 2 ^ 64 - 1 then
          Result.ok { Properties := props, DictCap := ((uint32 p.DictCap % 2 ^ 32 : Nat) : Int),
                      Size := -1, BufSize := ((uint32 p.DictCap % 2 ^ 32 : Nat) : Int),
                      EOSMarker := true }
        else if (if p.Size ≥ 0 then uint64 p.Size else noHeaderLen) % 2 ^ 64 < 2 ^ 63 then
          Result.ok { Properties := props, DictCap := ((uint32 p.DictCap % 2 ^ 32 : Nat) : Int),
                      Size := (((if p.Size ≥ 0 then uint64 p.Size else noHeaderLen) % 2 ^ 64 : Nat) : Int),
                      BufSize := ((uint32 p.DictCap % 2 ^ 32 : Nat) : Int), EOSMarker := false }
        else
          Result.error
            (.New "LZMA header: uncompressed length in header  out of int64 range") := by
  simp only [headerBytes, leBytes, List.cons_append, List.nil_append, readHeader_eq,
    leValue_leBytes4, leValue_leBytes8]

/-! ## Theorems: header round trip, layout, validation and size field -/

theorem classicProperties_inverse (props : Properties)
    (h : classicProperties.Verify props = none) :
    classicProperties.PropertiesForCode (classicProperties.Code props) = .ok props := by
  obtain ⟨lc, lp, pb⟩ := props
  simp only [classicProperties] at h ⊢
  split_ifs at h with h1 h2 h3
  have hc : uint64 ((pb * 5 + lp) * 9 + lc) = ((pb * 5 + lp) * 9 + lc).toNat := by
    unfold uint64
    congr 1
    omega
  have hv : (byte (uint64 ((pb * 5 + lp) * 9 + lc))).val = ((pb * 5 + lp) * 9 + lc).toNat := by
    rw [hc]
    simp only [byte]
    omega
  rw [hv]
  have hle : ¬ (((pb * 5 + lp) * 9 + lc).toNat > 224) := by omega
  rw [if_neg hle]
  congr 2 <;> omega

/-- C1. Header round trip. When `PropertiesForCode` inverts `Code` on the
properties that `Verify` accepts, then for every `p` with valid properties,
`MinDictCap ≤ DictCap ≤ MaxDictCap` and `Size = -1` or `0 ≤ Size < 2^63`,
and a sink that takes the write, `writeHeader` succeeds and writes 13 bytes
on which `readHeader` succeeds with the properties, dictionary capacity and
size of `p`, and with `EOSMarker` set exactly when `Size = -1`. -/
theorem header_round_trip {σ : Type} (api : PropertiesAPI) (W : Sink σ) (w : σ)
    (p : Parameters)
    (hinv : ∀ props, api.Verify props = none →
      api.PropertiesForCode (api.Code props) = .ok props)
    (hv : api.Verify p.Properties = none)
    (hd : MinDictCap ≤ p.DictCap ∧ p.DictCap ≤ MaxDictCap)
    (hs : p.Size = -1 ∨ (0 ≤ p.Size ∧ p.Size < 2 ^ 63))
    (hW : ∀ b, (W.Write w b).2.2 = none) :
    ∃ b : List Byte, b.length = 13 ∧
      writeHeader api W w p = ((W.Write w b).1, Result.ok ()) ∧
      ∀ (tail : List Byte) (e : Error), ∃ q : Parameters,
        readHeader api ⟨b ++ tail, e⟩ = Result.ok q ∧
        q.Properties = p.Properties ∧ q.DictCap = p.DictCap ∧ q.Size = p.Size ∧
        (q.EOSMarker = true ↔ p.Size = -1) := by
  rw [MinDictCap_eq, MaxDictCap_eq] at hd
  refine ⟨headerBytes api p, headerBytes_length api p, ?_, ?_⟩
  · rw [writeHeader_eq api W w p hv (by rw [MaxDictCap_eq]; omega)]
    have h := hW (headerBytes api p)
    rcases hr : W.Write w (headerBytes api p) with ⟨w', n, err⟩
    rw [hr] at h
    simp only at h
    subst h
    rfl
  · intro tail e
    rw [readHeader_headerBytes, hinv _ hv]
    have hD : ((uint32 p.DictCap % 2 ^ 32 : Nat) : Int) = p.DictCap := by
      unfold uint32
      omega
    simp only [hD, noHeaderLen_eq]
    rcases hs with hs | ⟨hs0, hs1⟩
    · have hneg : ¬ (p.Size ≥ 0) := by omega
      simp only [hneg, if_false, if_true, Nat.mod_eq_of_lt (by decide : 2 ^ 64 - 1 < 2 ^ 64)]
      exact ⟨_, rfl, rfl, rfl, hs.symm, by simp [hs]⟩
    · have hS : uint64 p.Size % 2 ^ 64 = p.Size.toNat := by
        unfold uint64
        omega
      have hne : ¬ (p.Size.toNat = 2 ^ 64 - 1) := by omega
      have hlt : p.Size.toNat < 2 ^ 63 := by omega
      have hm1 : ¬ (p.Size = -1) := by omega
      simp only [ge_iff_le, hs0, if_true, hS, hne, if_false, hlt]
      refine ⟨_, rfl, rfl, rfl, ?_, by simp [hm1]⟩
      simp only
      omega

theorem header_round_trip_witness :
    ∃ (b : List Byte) (q : Parameters), b.length = 13 ∧
      writeHeader classicProperties (recorder none) []
          { Properties := ⟨3, 0, 2⟩, DictCap := 8388608, Size := -1, BufSize := 0,
            EOSMarker := false } =
        (((recorder none).Write [] b).1, Result.ok ()) ∧
      readHeader classicProperties ⟨b, Error.EOF⟩ = Result.ok q ∧
      q.Properties = ⟨3, 0, 2⟩ ∧ q.DictCap = 8388608 ∧ q.Size = -1 ∧ q.EOSMarker = true := by
  obtain ⟨b, hlen, hw, hr⟩ := header_round_trip classicProperties (recorder none) []
    { Properties := ⟨3, 0, 2⟩, DictCap := 8388608, Size := -1, BufSize := 0, EOSMarker := false }
    classicProperties_inverse (by decide) (by decide) (Or.inl rfl) (fun _ => rfl)
  obtain ⟨q, h1, h2, h3, h4, h5⟩ := hr [] Error.EOF
  rw [List.append_nil] at h1
  exact ⟨b, q, hlen, hw, h1, h2, h3, h4, h5.2 rfl⟩

theorem writeHeader_invalid_properties {σ : Type} (api : PropertiesAPI) (W : Sink σ) (w : σ)
    (p : Parameters) (e : Error) (hv : api.Verify p.Properties = some e) :
    writeHeader api W w p = (w, Result.error e) := by
  simp only [writeHeader, hv]

theorem writeHeader_invalid_dictCap {σ : Type} (api : PropertiesAPI) (W : Sink σ) (w : σ)
    (p : Parameters) (hv : api.Verify p.Properties = none)
    (hd : ¬ (0 ≤ p.DictCap ∧ p.DictCap ≤ MaxDictCap)) :
    writeHeader api W w p =
      (w, Result.error (.Errorf "write LZMA header: DictCap %d out of range" p.DictCap)) := by
  simp only [writeHeader, hv, hd, not_false_eq_true, if_true]

theorem afterWrite_ok {σ : Type} (r : σ × Int × Option Error) (w' : σ)
    (h : afterWrite r = (w', Result.ok ())) : ∃ n : Int, r = (w', n, none) := by
  obtain ⟨s, n, _ | err⟩ := r
  · simp only [afterWrite, Prod.mk.injEq, and_true] at h
    exact ⟨n, by rw [h]⟩
  · simp [afterWrite] at h

/-- C2. Header layout. When `writeHeader` succeeds on `p`, the sink has
taken exactly one `Write`, of 13 bytes: byte 0 is the properties code,
bytes 1 to 4 are `DictCap` as a 32-bit little-endian number, and bytes 5 to
12 are `Size` as a 64-bit little-endian number when `Size ≥ 0` and eight
bytes `0xFF`, the number `2^64 - 1`, when `Size < 0`. -/
theorem header_layout {σ : Type} (api : PropertiesAPI) (W : Sink σ) (w w' : σ)
    (p : Parameters) (hp : p.wellTyped)
    (h : writeHeader api W w p = (w', Result.ok ())) :
    ∃ (b : List Byte) (n : Int), W.Write w b = (w', n, none) ∧ b.length = 13 ∧
      b[0]? = some (api.Code p.Properties) ∧
      (0 ≤ p.DictCap ∧ p.DictCap < 2 ^ 32 ∧
        (b.drop 1).take 4 = leBytes 4 p.DictCap.toNat ∧
        (leValue ((b.drop 1).take 4) : Int) = p.DictCap) ∧
      (0 ≤ p.Size →
        b.drop 5 = leBytes 8 p.Size.toNat ∧ (leValue (b.drop 5) : Int) = p.Size) ∧
      (p.Size < 0 →
        b.drop 5 = List.replicate 8 255 ∧ leValue (b.drop 5) = 2 ^ 64 - 1) := by
  cases hv : api.Verify p.Properties with
  | some e =>
    rw [writeHeader_invalid_properties api W w p e hv] at h
    simp at h
  | none =>
    by_cases hd : 0 ≤ p.DictCap ∧ p.DictCap ≤ MaxDictCap
    · rw [writeHeader_eq api W w p hv hd] at h
      obtain ⟨n, hn⟩ := afterWrite_ok _ w' h
      rw [MaxDictCap_eq] at hd
      obtain ⟨-, ⟨hs1, hs2⟩, -⟩ := hp
      have hD : uint32 p.DictCap = p.DictCap.toNat := by
        unfold uint32
        omega
      refine ⟨headerBytes api p, n, hn, headerBytes_length api p, ?_, ⟨hd.1, by omega, ?_, ?_⟩,
        ?_, ?_⟩
      · simp [headerBytes]
      · simp [headerBytes, leBytes, hD]
      · have hv4 := leValue_leBytes 4 p.DictCap.toNat
        simp only [headerBytes, leBytes, hD, List.drop, List.take, List.cons_append,
          List.nil_append] at hv4 ⊢
        rw [hv4]
        omega
      · intro h0
        have hS : uint64 p.Size = p.Size.toNat := by
          unfold uint64
          omega
        have hb : List.drop 5 (headerBytes api p) = leBytes 8 p.Size.toNat := by
          simp [headerBytes, leBytes, h0, hS]
        rw [hb, leValue_leBytes 8 p.Size.toNat]
        exact ⟨rfl, by omega⟩
      · intro h0
        have hneg : ¬ (p.Size ≥ 0) := by omega
        have hb : List.drop 5 (headerBytes api p) = List.replicate 8 255 := by
          simp only [headerBytes, leBytes, List.drop, List.cons_append, List.nil_append,
            List.append_eq, hneg, if_false]
          decide
        rw [hb]
        exact ⟨rfl, by decide⟩
    · rw [writeHeader_invalid_dictCap api W w p hv hd] at h
      simp at h

theorem header_layout_witness :
    ∃ (b : List Byte) (n : Int),
      (recorder none).Write [] b =
        ([[93, 0, 0, 128, 0, 232, 3, 0, 0, 0, 0, 0, 0]], n, none) ∧ b.length = 13 ∧
      b[0]? = some (classicProperties.Code ⟨3, 0, 2⟩) ∧
      ((0 : Int) ≤ 8388608 ∧ (8388608 : Int) < 2 ^ 32 ∧
        (b.drop 1).take 4 = leBytes 4 (8388608 : Int).toNat ∧
        (leValue ((b.drop 1).take 4) : Int) = 8388608) ∧
      ((0 : Int) ≤ 1000 →
        b.drop 5 = leBytes 8 (1000 : Int).toNat ∧ (leValue (b.drop 5) : Int) = 1000) ∧
      ((1000 : Int) < 0 →
        b.drop 5 = List.replicate 8 255 ∧ leValue (b.drop 5) = 2 ^ 64 - 1) :=
  header_layout classicProperties (recorder none) [] [[93, 0, 0, 128, 0, 232, 3, 0, 0, 0, 0, 0, 0]]
    { Properties := ⟨3, 0, 2⟩, DictCap := 8388608, Size := 1000, BufSize := 0, EOSMarker := false }
    (by decide) (by decide)

theorem writeHeader_valid {σ : Type} (api : PropertiesAPI) (W : Sink σ) (w : σ)
    (p : Parameters) (hW : ∀ s b, (W.Write s b).2.2 = none)
    (hv : api.Verify p.Properties = none) (hd : 0 ≤ p.DictCap ∧ p.DictCap ≤ MaxDictCap) :
    writeHeader api W w p = ((W.Write w (headerBytes api p)).1, Result.ok ()) := by
  rw [writeHeader_eq api W w p hv hd]
  have h := hW w (headerBytes api p)
  rcases hr : W.Write w (headerBytes api p) with ⟨w', n, err⟩
  rw [hr] at h
  simp only at h
  subst h
  rfl

/-- C3. Validation in `writeHeader`, on a sink that never fails: an error is
returned exactly when `Verify` rejects the properties or `DictCap` is
outside `[0, MaxDictCap]`, and otherwise the call succeeds; `DictCap = 0` is
accepted; an error of `Verify` is the one returned, whatever `DictCap` is;
and with a validation error the sink is left as it was. -/
theorem writeHeader_validation {σ : Type} (api : PropertiesAPI) (W : Sink σ) (w : σ)
    (p : Parameters) (hW : ∀ s b, (W.Write s b).2.2 = none) :
    ((∃ e, (writeHeader api W w p).2 = Result.error e) ↔
      (api.Verify p.Properties ≠ none ∨ ¬ (0 ≤ p.DictCap ∧ p.DictCap ≤ MaxDictCap))) ∧
    ((writeHeader api W w p).2 = Result.ok () ↔
      (api.Verify p.Properties = none ∧ 0 ≤ p.DictCap ∧ p.DictCap ≤ MaxDictCap)) ∧
    (api.Verify p.Properties = none → p.DictCap = 0 →
      (writeHeader api W w p).2 = Result.ok ()) ∧
    (∀ e, api.Verify p.Properties = some e →
      (writeHeader api W w p).2 = Result.error e) ∧
    ((∃ e, (writeHeader api W w p).2 = Result.error e) → (writeHeader api W w p).1 = w) := by
  cases hv : api.Verify p.Properties with
  | some e =>
    rw [writeHeader_invalid_properties api W w p e hv]
    simp
  | none =>
    by_cases hd : 0 ≤ p.DictCap ∧ p.DictCap ≤ MaxDictCap
    · rw [writeHeader_valid api W w p hW hv hd]
      simp only [reduceCtorEq, exists_false, ne_eq, not_true_eq_false, hd, and_self,
        or_self, true_and, forall_const, false_implies, implies_true, and_true, iff_true]
    · rw [writeHeader_invalid_dictCap api W w p hv hd]
      have h0 : ¬ (p.DictCap = 0) := by
        intro h
        apply hd
        rw [h, MaxDictCap_eq]
        omega
      simp [hd, h0]

theorem writeHeader_validation_witness :
    (writeHeader classicProperties (recorder none) []
        { Properties := ⟨9, 0, 2⟩, DictCap := -1, Size := -1, BufSize := 0,
          EOSMarker := false }).2 = Result.error (.New "lzma: lc out of range") ∧
    (writeHeader classicProperties (recorder none) []
        { Properties := ⟨9, 0, 2⟩, DictCap := -1, Size := -1, BufSize := 0,
          EOSMarker := false }).1 = [] := by
  have h := writeHeader_validation classicProperties (recorder none) []
    { Properties := ⟨9, 0, 2⟩, DictCap := -1, Size := -1, BufSize := 0, EOSMarker := false }
    (fun _ _ => rfl)
  have he := h.2.2.2.1 (.New "lzma: lc out of range") (by decide)
  exact ⟨he, h.2.2.2.2 ⟨_, he⟩⟩

theorem uint64LE_eq_leValue (s0 s1 s2 s3 s4 s5 s6 s7 : Byte) :
    uint64LE [s0, s1, s2, s3, s4, s5, s6, s7] =
      some (leValue [s0, s1, s2, s3, s4, s5, s6, s7]) := by
  rw [uint64LE_eq]
  simp [leValue]

/-- C4. Decoding of the size field by `readHeader`, on 13 bytes whose first
byte is a valid properties code, `u` being the little-endian value of bytes
5 to 12, which is what `uint64LE` reads: `u = 2^64 - 1` gives `Size = -1`
and `EOSMarker = true`; `u < 2^63` gives `Size = u` and `EOSMarker = false`;
any other `u` gives an error. -/
theorem readHeader_size_field (api : PropertiesAPI) (b : List Byte) (e : Error)
    (b0 : Byte) (props : Properties) (hlen : b.length = 13) (hb0 : b[0]? = some b0)
    (hprops : api.PropertiesForCode b0 = .ok props) :
    uint64LE (b.drop 5) = some (leValue (b.drop 5)) ∧ noHeaderLen = 2 ^ 64 - 1 ∧
    (leValue (b.drop 5) = 2 ^ 64 - 1 →
      ∃ q : Parameters, readHeader api ⟨b, e⟩ = Result.ok q ∧ q.Size = -1 ∧
        q.EOSMarker = true) ∧
    (leValue (b.drop 5) < 2 ^ 63 →
      ∃ q : Parameters, readHeader api ⟨b, e⟩ = Result.ok q ∧
        q.Size = (leValue (b.drop 5) : Int) ∧ q.EOSMarker = false) ∧
    (2 ^ 63 ≤ leValue (b.drop 5) → leValue (b.drop 5) < 2 ^ 64 - 1 →
      ∃ err : Error, readHeader api ⟨b, e⟩ = Result.error err) := by
  rcases b with _ | ⟨a0, _ | ⟨c0, _ | ⟨c1, _ | ⟨c2, _ | ⟨c3, _ | ⟨s0, _ | ⟨s1, _ | ⟨s2,
    _ | ⟨s3, _ | ⟨s4, _ | ⟨s5, _ | ⟨s6, _ | ⟨s7, _ | ⟨x, t⟩⟩⟩⟩⟩⟩⟩⟩⟩⟩⟩⟩⟩⟩ <;>
    simp at hlen
  simp only [List.getElem?_cons_zero, Option.some.injEq] at hb0
  subst hb0
  rw [readHeader_eq, hprops]
  simp only [List.drop]
  refine ⟨uint64LE_eq_leValue _ _ _ _ _ _ _ _, noHeaderLen_eq, ?_, ?_, ?_⟩
  · intro h
    rw [if_pos h]
    exact ⟨_, rfl, rfl, rfl⟩
  · intro h
    rw [if_neg (by omega), if_pos h]
    exact ⟨_, rfl, rfl, rfl⟩
  · intro h1 h2
    rw [if_neg (by omega), if_neg (by omega)]
    exact ⟨_, rfl⟩

theorem readHeader_size_field_witness :
    ∃ err : Error,
      readHeader classicProperties
        ⟨[93, 0, 0, 128, 0, 255, 255, 255, 255, 255, 255, 255, 254], Error.EOF⟩ =
        Result.error err :=
  (readHeader_size_field classicProperties
    [93, 0, 0, 128, 0, 255, 255, 255, 255, 255, 255, 255, 254] Error.EOF 93 ⟨3, 0, 2⟩
    (by decide) (by decide) rfl).2.2.2.2 (by decide) (by decide)

/-! ## Theorems: parameter normalisation, reachable probabilities, the two header encoders -/

/-- C18. `normalizeReader` is a total function without a failure: afterwards
`DictCap` is the larger of the old `DictCap` and `MinDictCap`, `EOSMarker`
is the old flag or `Size < 0`, `BufSize` is the old `BufSize` when that was
positive and the new `DictCap` otherwise, `Properties` and `Size` are
unchanged; so `DictCap ≥ MinDictCap` and `BufSize > 0` afterwards. -/
theorem normalizeReader_spec (p : Parameters) :
    (normalizeReader p).DictCap = max p.DictCap MinDictCap ∧
    (normalizeReader p).EOSMarker = (p.EOSMarker || decide (p.Size < 0)) ∧
    (normalizeReader p).BufSize =
      (if p.BufSize > 0 then p.BufSize else (normalizeReader p).DictCap) ∧
    (normalizeReader p).Properties = p.Properties ∧
    (normalizeReader p).Size = p.Size ∧
    MinDictCap ≤ (normalizeReader p).DictCap ∧ 0 < (normalizeReader p).BufSize := by
  have hmin := MinDictCap_eq
  simp only [normalizeReader]
  by_cases h1 : p.DictCap < MinDictCap <;> by_cases h2 : p.Size < 0 <;>
    by_cases h3 : p.BufSize ≤ 0 <;>
    simp only [h1, h2, h3, if_true, if_false, decide_True, decide_False, Bool.or_true,
      Bool.or_false] <;>
    refine ⟨?_, ?_, ?_, ?_, ?_, ?_, ?_⟩ <;>
    first
      | trivial
      | rfl
      | omega

theorem reachable_band (us : List Update) :
    ∀ p : Nat, 31 ≤ p → p ≤ 2017 → 31 ≤ applyUpdates us p ∧ applyUpdates us p ≤ 2017 := by
  induction us with
  | nil => intro p h1 h2; exact ⟨h1, h2⟩
  | cons u us ih =>
    intro p h1 h2
    have h : 31 ≤ u.apply p ∧ u.apply p ≤ 2017 := by
      cases u
      · show 31 ≤ dec p ∧ dec p ≤ 2017
        rw [dec_eq p (by omega)]
        omega
      · show 31 ≤ inc p ∧ inc p ≤ 2017
        rw [inc_eq p (by omega)]
        omega
    exact ih (u.apply p) h.1 h.2

set_option maxRecDepth 100000 in
theorem iterate_dec_reaches_31 :
    applyUpdates (List.replicate 127 Update.dec) probInit = 31 := by
  decide

set_option maxRecDepth 100000 in
theorem iterate_inc_reaches_2017 :
    applyUpdates (List.replicate 127 Update.inc) probInit = 2017 := by
  decide

/-- C19. From `probInit = 1024` every finite sequence of `dec` and `inc`
keeps the value in `[31, 2017]`; `dec` leaves 31 and `inc` leaves 2017 where
they are, and both values are reached; so for a reachable `p` and a 32-bit
range `r ≥ 2^11`, `0 < bound p r < r`. -/
theorem reachable_probabilities :
    (∀ us : List Update,
      31 ≤ applyUpdates us probInit ∧ applyUpdates us probInit ≤ 2017) ∧
    dec 31 = 31 ∧ inc 2017 = 2017 ∧
    (∃ us : List Update, applyUpdates us probInit = 31) ∧
    (∃ us : List Update, applyUpdates us probInit = 2017) ∧
    (∀ (us : List Update) (r : Nat), 2 ^ 11 ≤ r → r < 2 ^ 32 →
      0 < bound (applyUpdates us probInit) r ∧ bound (applyUpdates us probInit) r < r) := by
  have hband := fun us => reachable_band us probInit (by decide) (by decide)
  refine ⟨hband, by decide, by decide, ?_, ?_, ?_⟩
  · exact ⟨List.replicate 127 Update.dec, iterate_dec_reaches_31⟩
  · exact ⟨List.replicate 127 Update.inc, iterate_inc_reaches_2017⟩
  · intro us r h1 h2
    obtain ⟨hl, hu⟩ := hband us
    generalize applyUpdates us probInit = p at hl hu
    rw [bound_eq p r (by omega) h2]
    have hq : 1 ≤ r / 2 ^ 11 := by omega
    have hle : r / 2 ^ 11 * 2 ^ 11 ≤ r := Nat.div_mul_le_self r (2 ^ 11)
    have h31 : r / 2 ^ 11 * 31 ≤ r / 2 ^ 11 * p := Nat.mul_le_mul_left _ hl
    have h2017 : r / 2 ^ 11 * p ≤ r / 2 ^ 11 * 2017 := Nat.mul_le_mul_left _ hu
    omega

theorem reachable_probabilities_witness :
    0 < bound (applyUpdates [Update.dec, Update.inc] probInit) 4096 ∧
    bound (applyUpdates [Update.dec, Update.inc] probInit) 4096 < 4096 :=
  reachable_probabilities.2.2.2.2.2 [Update.dec, Update.inc] 4096 (by decide) (by decide)

theorem afterWrite_eq {σ : Type} (r : σ × Int × Option Error) :
    afterWrite r = (r.1, errorResult r.2.2) := by
  obtain ⟨s, n, _ | err⟩ := r <;> rfl

theorem Writer.writeHeader_bytes (api : PropertiesAPI) (C : Collaborators) (w : Writer C)
    (s : C.Out) :
    Writer.writeHeader api C w s = afterWrite (C.bw.Write s (headerBytes api w.parameters)) := by
  obtain ⟨e1, e2, e3, e4, e5, e6, e7⟩ :=
    byte_shiftRight (if w.Size ≥ 0 then uint64 w.Size else noHeaderLen)
  obtain ⟨f1, f2, f3, -⟩ := byte_shiftRight (uint32 w.DictCap)
  simp only [Writer.writeHeader, List.replicate, List.set, List.drop, List.take, putUint32LE,
    putUint64LE, List.cons_append, List.nil_append, List.append_eq, headerBytes, leBytes,
    Writer.parameters, e1, e2, e3, e4, e5, e6, e7, f1, f2, f3, afterWrite_eq]

/-- C20. The two header encoders agree: for a writer with valid properties
and `MinDictCap ≤ DictCap ≤ MaxDictCap`, with any size, the method
`Writer.writeHeader` and the function `writeHeader`, called on the
`Parameters` with the same properties, dictionary capacity and size, hand
the same 13 bytes to the output in one write and return the same error. -/
theorem header_encoders_agree (api : PropertiesAPI) (C : Collaborators) (w : Writer C)
    (s : C.Out) (p : Parameters)
    (hv : api.Verify w.Properties = none)
    (hd : MinDictCap ≤ w.DictCap ∧ w.DictCap ≤ MaxDictCap)
    (hp : p.Properties = w.Properties ∧ p.DictCap = w.DictCap ∧ p.Size = w.Size) :
    Writer.writeHeader api C w s = writeHeader api C.bw s p ∧
    ∃ b : List Byte, b.length = 13 ∧
      Writer.writeHeader api C w s = afterWrite (C.bw.Write s b) ∧
      writeHeader api C.bw s p = afterWrite (C.bw.Write s b) := by
  obtain ⟨hp1, hp2, hp3⟩ := hp
  have hb : headerBytes api p = headerBytes api w.parameters := by
    simp only [headerBytes, Writer.parameters, hp1, hp2, hp3]
  have hmin := MinDictCap_eq
  have h1 := Writer.writeHeader_bytes api C w s
  have h2 := writeHeader_eq api C.bw s p (by rw [hp1]; exact hv)
    (by rw [hp2]; exact ⟨by omega, hd.2⟩)
  rw [hb] at h2
  exact ⟨by rw [h1, h2], headerBytes api w.parameters, headerBytes_length api _, h1, h2⟩

theorem header_encoders_agree_witness :
    Writer.writeHeader classicProperties storing (NewWriter storing false) [] =
      ([[93, 0, 0, 128, 0, 255, 255, 255, 255, 255, 255, 255, 255]], Result.ok ()) ∧
    writeHeader classicProperties (recorder none) [] Default =
      ([[93, 0, 0, 128, 0, 255, 255, 255, 255, 255, 255, 255, 255]], Result.ok ()) := by
  have h := (header_encoders_agree classicProperties storing (NewWriter storing false) []
    Default (by decide) (by decide) (by decide)).1
  have h2 : writeHeader classicProperties (recorder none) [] Default =
      ([[93, 0, 0, 128, 0, 255, 255, 255, 255, 255, 255, 255, 255]], Result.ok ()) := by
    decide
  exact ⟨h.trans h2, h2⟩

/-! ## Theorems: the writer -/

theorem wrap64_eq (x : Int) (h : isInt64 x) : wrap64 x = x := by
  obtain ⟨h1, h2⟩ := h
  unfold wrap64 toInt64
  have hm : ((x % 2 ^ 64).toNat % 2 ^ 64 : Nat) = (x % 2 ^ 64).toNat := by omega
  rw [hm]
  split_ifs <;> omega

theorem Writer.initIfNil_some (api : PropertiesAPI) (C : Collaborators) (w : Writer C)
    (s : C.Out) (enc : C.Encoder) (he : w.e = some enc) :
    Writer.initIfNil api C w s = ((w, s), Result.ok ()) := by
  simp [Writer.initIfNil, he]

theorem Writer.initIfNil_none (api : PropertiesAPI) (C : Collaborators) (w : Writer C)
    (s : C.Out) (he : w.e = none) :
    Writer.initIfNil api C w s = Writer.init api C w s := by
  simp [Writer.initIfNil, he]

theorem Writer.Write_of_init (api : PropertiesAPI) (C : Collaborators) (w0 w : Writer C)
    (s0 s : C.Out) (p : List Byte)
    (hinit : Writer.initIfNil api C w0 s0 = ((w, s), Result.ok ())) :
    Writer.Write api C w0 s0 p = Writer.writeBody C w s p := by
  simp only [Writer.Write, hinit]

theorem Writer.Close_of_init (api : PropertiesAPI) (C : Collaborators) (w0 w : Writer C)
    (s0 s : C.Out) (hinit : Writer.initIfNil api C w0 s0 = ((w, s), Result.ok ())) :
    Writer.Close api C w0 s0 = Writer.closeBody C w s := by
  simp only [Writer.Close, hinit]

theorem Writer.writeBody_eq (C : Collaborators) (w : Writer C) (s : C.Out) (p : List Byte)
    (enc : C.Encoder) (q : List Byte) (err : Option Error) (he : w.e = some enc)
    (hclip : (if w.Size ≥ 0 then
        (if (if wrap64 (w.Size - wrap64 (C.Compressed enc + C.Buffered enc)) < 0 then 0
              else wrap64 (w.Size - wrap64 (C.Compressed enc + C.Buffered enc))) <
            (p.length : Int) then
          (p.take (if wrap64 (w.Size - wrap64 (C.Compressed enc + C.Buffered enc)) < 0 then 0
              else wrap64 (w.Size - wrap64 (C.Compressed enc + C.Buffered enc))).toNat,
            some C.ErrNoSpace)
        else (p, none))
      else (p, none)) = (q, err)) :
    Writer.writeBody C w s p =
      (({ w with e := some (C.Write enc s q).1 }, (C.Write enc s q).2.1),
        Result.ok ((C.Write enc s q).2.2.1,
          match (C.Write enc s q).2.2.2 with
          | some werr => some werr
          | none => err)) := by
  simp only [Writer.writeBody, he, hclip]
  rcases C.Write enc s q with ⟨e', s', n, _ | werr⟩ <;> rfl

theorem Writer.writeBody_sized (C : Collaborators) (w : Writer C) (s : C.Out) (p : List Byte)
    (enc : C.Encoder) (he : w.e = some enc)
    (hs : 0 ≤ w.Size ∧ w.Size < 2 ^ 63)
    (hc : 0 ≤ processed C enc ∧ processed C enc < 2 ^ 63) :
    Writer.writeBody C w s p =
      (({ w with e := some (C.Write enc s
            (p.take (min (p.length : Int) (max 0 (w.Size - processed C enc))).toNat)).1 },
          (C.Write enc s
            (p.take (min (p.length : Int) (max 0 (w.Size - processed C enc))).toNat)).2.1),
        Result.ok ((C.Write enc s
            (p.take (min (p.length : Int) (max 0 (w.Size - processed C enc))).toNat)).2.2.1,
          match (C.Write enc s
            (p.take (min (p.length : Int) (max 0 (w.Size - processed C enc))).toNat)).2.2.2 with
          | some werr => some werr
          | none =>
            if (p.length : Int) > max 0 (w.Size - processed C enc) then some C.ErrNoSpace
            else none)) := by
  apply Writer.writeBody_eq C w s p enc _ _ he
  have h1 : wrap64 (C.Compressed enc + C.Buffered enc) = processed C enc :=
    wrap64_eq _ ⟨by unfold processed at hc; omega, by unfold processed at hc; omega⟩
  have h2 : wrap64 (w.Size - processed C enc) = w.Size - processed C enc :=
    wrap64_eq _ ⟨by omega, by omega⟩
  rw [h1, h2]
  generalize processed C enc = c at hc ⊢
  have hge : w.Size ≥ 0 := hs.1
  rw [if_pos hge]
  by_cases hneg : w.Size - c < 0
  · rw [if_pos hneg]
    have hmax : max 0 (w.Size - c) = 0 := by omega
    rw [hmax]
    by_cases hlen : (0 : Int) < (p.length : Int)
    · have hmin : min (p.length : Int) 0 = 0 := by omega
      rw [if_pos hlen, if_pos (by omega), hmin]
    · have hp : p = [] := by
        cases p with
        | nil => rfl
        | cons a t => exact absurd (by simp) hlen
      subst hp
      simp
  · rw [if_neg hneg]
    have hmax : max 0 (w.Size - c) = w.Size - c := by omega
    rw [hmax]
    by_cases hlen : w.Size - c < (p.length : Int)
    · have hmin : min (p.length : Int) (w.Size - c) = w.Size - c := by omega
      rw [if_pos hlen, if_pos (by omega), hmin]
    · have hmin : min (p.length : Int) (w.Size - c) = (p.length : Int) := by omega
      rw [if_neg hlen, if_neg (by omega), hmin]
      simp

theorem Writer.writeBody_unsized (C : Collaborators) (w : Writer C) (s : C.Out)
    (p : List Byte) (enc : C.Encoder) (he : w.e = some enc) (hs : w.Size < 0) :
    Writer.writeBody C w s p =
      (({ w with e := some (C.Write enc s p).1 }, (C.Write enc s p).2.1),
        Result.ok ((C.Write enc s p).2.2.1, (C.Write enc s p).2.2.2)) := by
  have h := Writer.writeBody_eq C w s p enc p none he (by rw [if_neg (by omega)])
  rw [h]
  rcases C.Write enc s p with ⟨e', s', n, _ | werr⟩ <;> rfl

/-- C12. Budget clipping in `Write`, for a writer that is initialised (by an
earlier call, or by this one) with encoder `enc`. With `Size ≥ 0` and
`m = max(0, Size - (Compressed() + Dict.Buffered()))`, counts being in the
range of `int64`: the encoder is given exactly the first `min(len(p), m)`
bytes of `p`, `Write` returns its count, and as error that of the encoder
when it has one, otherwise `ErrNoSpace` exactly when `len(p) > m`, otherwise
nil. With `Size < 0` the encoder is given all of `p` and `Write` returns
what the encoder returns. -/
theorem write_budget_clipping (api : PropertiesAPI) (C : Collaborators) (w0 w : Writer C)
    (s0 s : C.Out) (p : List Byte) (enc : C.Encoder)
    (hinit : Writer.initIfNil api C w0 s0 = ((w, s), Result.ok ()))
    (he : w.e = some enc) (hsize : w.Size < 2 ^ 63)
    (hc : 0 ≤ processed C enc ∧ processed C enc < 2 ^ 63) :
    (0 ≤ w.Size →
      Writer.Write api C w0 s0 p =
        (({ w with e := some (C.Write enc s
              (p.take (min (p.length : Int) (max 0 (w.Size - processed C enc))).toNat)).1 },
            (C.Write enc s
              (p.take (min (p.length : Int) (max 0 (w.Size - processed C enc))).toNat)).2.1),
          Result.ok ((C.Write enc s
              (p.take (min (p.length : Int) (max 0 (w.Size - processed C enc))).toNat)).2.2.1,
            match (C.Write enc s
              (p.take (min (p.length : Int) (max 0 (w.Size - processed C enc))).toNat)).2.2.2 with
            | some werr => some werr
            | none =>
              if (p.length : Int) > max 0 (w.Size - processed C enc) then some C.ErrNoSpace
              else none))) ∧
    (w.Size < 0 →
      Writer.Write api C w0 s0 p =
        (({ w with e := some (C.Write enc s p).1 }, (C.Write enc s p).2.1),
          Result.ok ((C.Write enc s p).2.2.1, (C.Write enc s p).2.2.2))) := by
  rw [Writer.Write_of_init api C w0 w s0 s p hinit]
  exact ⟨fun h => Writer.writeBody_sized C w s p enc he ⟨h, hsize⟩ hc,
    fun h => Writer.writeBody_unsized C w s p enc he h⟩

theorem write_budget_clipping_witness :
    Writer.Write classicProperties storing
        { NewWriter storing false with Size := 10, e := some [1, 2, 3, 4] } []
        [5, 6, 7, 8, 9, 10, 11, 12] =
      (({ NewWriter storing false with Size := 10, e := some [1, 2, 3, 4, 5, 6, 7, 8, 9, 10] },
          []),
        Result.ok (6, some (Error.New "insufficient space"))) :=
  (write_budget_clipping classicProperties storing
    { NewWriter storing false with Size := 10, e := some [1, 2, 3, 4] }
    { NewWriter storing false with Size := 10, e := some [1, 2, 3, 4] } [] []
    [5, 6, 7, 8, 9, 10, 11, 12] [1, 2, 3, 4] rfl rfl (by decide) (by decide)).1 (by decide)

theorem Writer.closeBody_eq (C : Collaborators) (w : Writer C) (s : C.Out) (enc : C.Encoder)
    (he : w.e = some enc) :
    Writer.closeBody C w s =
      if w.Size ≥ 0 ∧ wrap64 (C.Compressed enc + C.Buffered enc) ≠ w.Size then
        ((w, s), Result.error C.errSize)
      else closeAndFlush C w enc s := by
  simp only [Writer.closeBody, he, closeAndFlush]

theorem Writer.closeBody_mismatch (C : Collaborators) (w : Writer C) (s : C.Out)
    (enc : C.Encoder) (he : w.e = some enc) (hc : isInt64 (processed C enc))
    (h : 0 ≤ w.Size ∧ processed C enc ≠ w.Size) :
    Writer.closeBody C w s = ((w, s), Result.error C.errSize) := by
  rw [Writer.closeBody_eq C w s enc he]
  have h1 : wrap64 (C.Compressed enc + C.Buffered enc) = processed C enc := wrap64_eq _ hc
  rw [h1, if_pos ⟨h.1, h.2⟩]

theorem Writer.closeBody_pass (C : Collaborators) (w : Writer C) (s : C.Out)
    (enc : C.Encoder) (he : w.e = some enc) (hc : isInt64 (processed C enc))
    (h : w.Size < 0 ∨ processed C enc = w.Size) :
    Writer.closeBody C w s = closeAndFlush C w enc s := by
  rw [Writer.closeBody_eq C w s enc he]
  have h1 : wrap64 (C.Compressed enc + C.Buffered enc) = processed C enc := wrap64_eq _ hc
  rw [h1, if_neg]
  rintro ⟨h2, h3⟩
  rcases h with h | h
  · omega
  · exact h3 h

theorem errorResult_eq_error (o : Option Error) (err : Error) :
    errorResult o = Result.error err ↔ o = some err := by
  cases o with
  | none => simp [errorResult]
  | some e => simp [errorResult]

/-- C13. The size check of `Close`, for a writer that is initialised (by an
earlier call, or by this one) with encoder `enc`, the processed count
`Compressed() + Dict.Buffered()` being in the range of `int64`. With
`Size ≥ 0` and a count different from `Size`, `Close` returns `errSize`
and neither closes the encoder nor flushes. With `Size < 0`, or with a count
equal to `Size`, the outcome of `Close` is that of the close of the encoder
and the flush of the buffer. So, when neither of these two returns
`errSize` itself, `Close` returns `errSize` exactly when `Size ≥ 0` and the
count differs from `Size`. -/
theorem close_size_check (api : PropertiesAPI) (C : Collaborators) (w0 w : Writer C)
    (s0 s : C.Out) (enc : C.Encoder)
    (hinit : Writer.initIfNil api C w0 s0 = ((w, s), Result.ok ()))
    (he : w.e = some enc) (hc : isInt64 (processed C enc)) :
    (0 ≤ w.Size ∧ processed C enc ≠ w.Size →
      Writer.Close api C w0 s0 = ((w, s), Result.error C.errSize)) ∧
    (w.Size < 0 ∨ processed C enc = w.Size →
      Writer.Close api C w0 s0 = closeAndFlush C w enc s) ∧
    ((C.Close enc s).2.2 ≠ some C.errSize →
      (C.Flush (C.Close enc s).2.1).2 ≠ some C.errSize →
      ((Writer.Close api C w0 s0).2 = Result.error C.errSize ↔
        (0 ≤ w.Size ∧ processed C enc ≠ w.Size))) := by
  rw [Writer.Close_of_init api C w0 w s0 s hinit]
  refine ⟨Writer.closeBody_mismatch C w s enc he hc, Writer.closeBody_pass C w s enc he hc, ?_⟩
  intro hclose hflush
  by_cases h : 0 ≤ w.Size ∧ processed C enc ≠ w.Size
  · rw [Writer.closeBody_mismatch C w s enc he hc h]
    exact ⟨fun _ => h, fun _ => rfl⟩
  · have hpass : w.Size < 0 ∨ processed C enc = w.Size := by
      by_cases h0 : 0 ≤ w.Size
      · right
        by_contra hne
        exact h ⟨h0, hne⟩
      · left
        omega
    rw [Writer.closeBody_pass C w s enc he hc hpass]
    refine ⟨fun hres => ?_, fun hh => absurd hh h⟩
    exfalso
    unfold closeAndFlush at hres
    split_ifs at hres
    · simp only at hres
      rw [errorResult_eq_error] at hres
      cases hcl : (C.Close enc s).2.2 with
      | none =>
        rw [hcl] at hres
        exact hflush hres
      | some err =>
        rw [hcl] at hres
        exact hclose (hcl.trans hres)
    · simp only at hres
      rw [errorResult_eq_error] at hres
      exact hclose hres

theorem close_size_check_witness :
    Writer.Close classicProperties storing
        { NewWriter storing false with Size := 10, e := some [1, 2, 3, 4] } [] =
      (({ NewWriter storing false with Size := 10, e := some [1, 2, 3, 4] }, []),
        Result.error (Error.New "lzma: wrong uncompressed data size")) :=
  (close_size_check classicProperties storing
    { NewWriter storing false with Size := 10, e := some [1, 2, 3, 4] }
    { NewWriter storing false with Size := 10, e := some [1, 2, 3, 4] } [] []
    [1, 2, 3, 4] rfl rfl (by decide)).1 (by decide)

/-- C15. Error precedence in `Close`, for a writer that is initialised (by
an earlier call, or by this one) with encoder `enc`, has a buffering adapter
and passes the size check: `Close` closes the encoder and then flushes the
adapter, on the output state that the close left and whatever the close
returned; it returns the error of the close when there is one, otherwise
that of the flush, otherwise nil. -/
theorem close_error_precedence (api : PropertiesAPI) (C : Collaborators) (w0 w : Writer C)
    (s0 s : C.Out) (enc : C.Encoder)
    (hinit : Writer.initIfNil api C w0 s0 = ((w, s), Result.ok ()))
    (he : w.e = some enc) (hbuf : w.buf = true) (hc : isInt64 (processed C enc))
    (hpass : w.Size < 0 ∨ processed C enc = w.Size) :
    (Writer.Close api C w0 s0).1 =
      ({ w with e := some (C.Close enc s).1 }, (C.Flush (C.Close enc s).2.1).1) ∧
    (∀ err, (C.Close enc s).2.2 = some err →
      (Writer.Close api C w0 s0).2 = Result.error err) ∧
    ((C.Close enc s).2.2 = none →
      (Writer.Close api C w0 s0).2 = errorResult (C.Flush (C.Close enc s).2.1).2) ∧
    ((C.Close enc s).2.2 = none → (C.Flush (C.Close enc s).2.1).2 = none →
      (Writer.Close api C w0 s0).2 = Result.ok ()) := by
  rw [Writer.Close_of_init api C w0 w s0 s hinit, Writer.closeBody_pass C w s enc he hc hpass]
  simp only [closeAndFlush, hbuf, if_true]
  refine ⟨trivial, ?_, ?_, ?_⟩
  · intro err h
    rw [h]
    rfl
  · intro h
    rw [h]
  · intro h1 h2
    rw [h1, h2]
    rfl

theorem close_error_precedence_witness :
    (Writer.Close classicProperties storing
        { NewWriter storing false with Size := 4, e := some [1, 2, 3, 4] } []).1 =
      ({ NewWriter storing false with Size := 4, e := some [1, 2, 3, 4] }, [[1, 2, 3, 4]]) ∧
    (Writer.Close classicProperties storing
        { NewWriter storing false with Size := 4, e := some [1, 2, 3, 4] } []).2 =
      Result.ok () := by
  have h := close_error_precedence classicProperties storing
    { NewWriter storing false with Size := 4, e := some [1, 2, 3, 4] }
    { NewWriter storing false with Size := 4, e := some [1, 2, 3, 4] } [] []
    [1, 2, 3, 4] rfl rfl rfl (by decide) (Or.inr (by decide))
  exact ⟨h.1, h.2.2.2 rfl rfl⟩

theorem Writer.init_invalid_properties (api : PropertiesAPI) (C : Collaborators)
    (w : Writer C) (s : C.Out) (err : Error) (he : w.e = none)
    (hv : api.Verify w.Properties = some err) :
    Writer.init api C w s = ((w, s), Result.error err) := by
  simp [Writer.init, he, hv]

theorem Writer.init_invalid_dictCap (api : PropertiesAPI) (C : Collaborators)
    (w : Writer C) (s : C.Out) (he : w.e = none) (hv : api.Verify w.Properties = none)
    (hd : ¬ (MinDictCap ≤ w.DictCap ∧ w.DictCap ≤ MaxDictCap)) :
    Writer.init api C w s =
      ((w, s), Result.error (.New "lzma.Writer: DictCap out of range")) := by
  simp only [Writer.init, he, hv, Option.isSome_none, Bool.false_eq_true, if_false, hd,
    not_false_eq_true, if_true]

theorem Writer.init_small_buffer (api : PropertiesAPI) (C : Collaborators)
    (w : Writer C) (s : C.Out) (he : w.e = none) (hv : api.Verify w.Properties = none)
    (hd : MinDictCap ≤ w.DictCap ∧ w.DictCap ≤ MaxDictCap)
    (hb : ¬ (C.maxMatchLen ≤ w.BufSize)) :
    Writer.init api C w s =
      (({ w with EOSMarker := (w.EOSMarker || decide (w.Size < 0)) }, s),
        Result.error (.New "lzma.Writer: lookahead buffer size too small")) := by
  obtain ⟨props, dictCap, size, bufSize, eos, buf, e⟩ := w
  simp only at he hv hd hb
  subst he
  by_cases hs : size < 0 <;>
    simp [Writer.init, hv, hd, hb, hs]

theorem Writer.init_dict_error (api : PropertiesAPI) (C : Collaborators)
    (w : Writer C) (s : C.Out) (err : Error) (he : w.e = none)
    (hv : api.Verify w.Properties = none)
    (hd : MinDictCap ≤ w.DictCap ∧ w.DictCap ≤ MaxDictCap)
    (hb : C.maxMatchLen ≤ w.BufSize)
    (hdict : C.NewEncoderDict w.DictCap (wrap64 (w.DictCap + w.BufSize)) = .error err) :
    Writer.init api C w s =
      (({ w with EOSMarker := (w.EOSMarker || decide (w.Size < 0)) }, s),
        Result.error err) := by
  obtain ⟨props, dictCap, size, bufSize, eos, buf, e⟩ := w
  simp only at he hv hd hb hdict
  subst he
  by_cases hs : size < 0 <;>
    simp [Writer.init, hv, hd, hb, hs, hdict]

theorem Writer.init_constructs (api : PropertiesAPI) (C : Collaborators)
    (w : Writer C) (s : C.Out) (dict : C.Dict) (he : w.e = none)
    (hv : api.Verify w.Properties = none)
    (hd : MinDictCap ≤ w.DictCap ∧ w.DictCap ≤ MaxDictCap)
    (hb : C.maxMatchLen ≤ w.BufSize)
    (hdict : C.NewEncoderDict w.DictCap (wrap64 (w.DictCap + w.BufSize)) = .ok dict) :
    Writer.init api C w s =
      match C.NewEncoder s (C.NewState w.Properties) dict
          (w.EOSMarker || decide (w.Size < 0)) with
      | (s1, e, some err) =>
        (({ w with EOSMarker := (w.EOSMarker || decide (w.Size < 0)), e := e }, s1),
          Result.error err)
      | (s1, e, none) =>
        (({ w with EOSMarker := (w.EOSMarker || decide (w.Size < 0)), e := e },
            (Writer.writeHeader api C
              { w with EOSMarker := (w.EOSMarker || decide (w.Size < 0)), e := e } s1).1),
          (Writer.writeHeader api C
              { w with EOSMarker := (w.EOSMarker || decide (w.Size < 0)), e := e } s1).2) := by
  obtain ⟨props, dictCap, size, bufSize, eos, buf, e⟩ := w
  simp only at he hv hd hb hdict
  subst he
  by_cases hs : size < 0 <;>
    simp only [Writer.init, hv, hd, hb, hs, hdict, Option.isSome_none, Bool.false_eq_true,
      if_false, if_true, and_self, not_true_eq_false, decide_True, decide_False, Bool.or_true,
      Bool.or_false]

theorem Writer.init_panics (api : PropertiesAPI) (C : Collaborators)
    (w : Writer C) (s : C.Out) (enc : C.Encoder) (he : w.e = some enc) :
    Writer.init api C w s = ((w, s), Result.panic "w.e expected to be nil") := by
  simp [Writer.init, he]

/-- C14. A writer with valid properties, no encoder yet and a `DictCap`
outside `[MinDictCap, MaxDictCap]`: `Write` returns 0 and the range error,
`Close` returns the range error, and after either the writer is as it was,
its encoder still nil, and the output state is as it was, nothing having
been written to the sink or the buffering adapter. -/
theorem writer_rejects_dictCap (api : PropertiesAPI) (C : Collaborators) (w : Writer C)
    (s : C.Out) (p : List Byte) (he : w.e = none) (hv : api.Verify w.Properties = none)
    (hd : ¬ (MinDictCap ≤ w.DictCap ∧ w.DictCap ≤ MaxDictCap)) :
    Writer.Write api C w s p =
      ((w, s), Result.ok (0, some (.New "lzma.Writer: DictCap out of range"))) ∧
    Writer.Close api C w s =
      ((w, s), Result.error (.New "lzma.Writer: DictCap out of range")) ∧
    (Writer.Write api C w s p).1.1.e = none ∧ (Writer.Close api C w s).1.1.e = none ∧
    (Writer.Write api C w s p).1.2 = s ∧ (Writer.Close api C w s).1.2 = s := by
  have hi := Writer.init_invalid_dictCap api C w s he hv hd
  have hw : Writer.Write api C w s p =
      ((w, s), Result.ok (0, some (.New "lzma.Writer: DictCap out of range"))) := by
    simp only [Writer.Write, Writer.initIfNil_none api C w s he, hi]
  have hc : Writer.Close api C w s =
      ((w, s), Result.error (.New "lzma.Writer: DictCap out of range")) := by
    simp only [Writer.Close, Writer.initIfNil_none api C w s he, hi]
  rw [hw, hc]
  exact ⟨rfl, rfl, he, he, rfl, rfl⟩

theorem writer_rejects_dictCap_witness :
    Writer.Write classicProperties storing { NewWriter storing false with DictCap := 4095 } []
        [1, 2, 3] =
      (({ NewWriter storing false with DictCap := 4095 }, []),
        Result.ok (0, some (.New "lzma.Writer: DictCap out of range"))) ∧
    Writer.Close classicProperties storing { NewWriter storing false with DictCap := 4095 } [] =
      (({ NewWriter storing false with DictCap := 4095 }, []),
        Result.error (.New "lzma.Writer: DictCap out of range")) := by
  have h := writer_rejects_dictCap classicProperties storing
    { NewWriter storing false with DictCap := 4095 } [] [1, 2, 3] rfl (by decide) (by decide)
  exact ⟨h.1, h.2.1⟩

/-- C17. When `init` succeeds, `EOSMarker` afterwards is the flag the caller
set or `Size < 0`: true for `Size < 0` whatever the caller set, and as the
caller set it for `Size ≥ 0`; and the encoder of the writer is the one that
`NewEncoder` returned when called with that flag. -/
theorem init_forces_eos_marker (api : PropertiesAPI) (C : Collaborators) (w w1 : Writer C)
    (s s1 : C.Out) (h : Writer.init api C w s = ((w1, s1), Result.ok ())) :
    w1.EOSMarker = (w.EOSMarker || decide (w.Size < 0)) ∧
    (w.Size < 0 → w1.EOSMarker = true) ∧
    (0 ≤ w.Size → w1.EOSMarker = w.EOSMarker) ∧
    ∃ (dict : C.Dict) (s2 : C.Out),
      C.NewEncoderDict w.DictCap (wrap64 (w.DictCap + w.BufSize)) = .ok dict ∧
      C.NewEncoder s (C.NewState w.Properties) dict w1.EOSMarker = (s2, w1.e, none) := by
  cases he : w.e with
  | some enc =>
    rw [Writer.init_panics api C w s enc he] at h
    simp at h
  | none =>
    cases hv : api.Verify w.Properties with
    | some err =>
      rw [Writer.init_invalid_properties api C w s err he hv] at h
      simp at h
    | none =>
      by_cases hd : MinDictCap ≤ w.DictCap ∧ w.DictCap ≤ MaxDictCap
      · by_cases hb : C.maxMatchLen ≤ w.BufSize
        · cases hdict : C.NewEncoderDict w.DictCap (wrap64 (w.DictCap + w.BufSize)) with
          | error err =>
            rw [Writer.init_dict_error api C w s err he hv hd hb hdict] at h
            simp at h
          | ok dict =>
            rw [Writer.init_constructs api C w s dict he hv hd hb hdict] at h
            rcases hne : C.NewEncoder s (C.NewState w.Properties) dict
              (w.EOSMarker || decide (w.Size < 0)) with ⟨s2, e2, _ | err⟩
            · rw [hne] at h
              simp only [Prod.mk.injEq] at h
              obtain ⟨⟨hw, -⟩, -⟩ := h
              subst hw
              refine ⟨rfl, ?_, ?_, dict, s2, rfl, hne⟩
              · intro hs
                simp [hs]
              · intro hs
                have : ¬ w.Size < 0 := by omega
                simp [this]
            · rw [hne] at h
              simp at h
        · rw [Writer.init_small_buffer api C w s he hv hd hb] at h
          simp at h
      · rw [Writer.init_invalid_dictCap api C w s he hv hd] at h
        simp at h

theorem init_forces_eos_marker_witness :
    (true = (false || decide ((-1 : Int) < 0))) ∧
    ((-1 : Int) < 0 → true = true) ∧ ((0 : Int) ≤ -1 → true = false) ∧
    ∃ (dict : Int × Int) (s2 : List (List Byte)),
      storing.NewEncoderDict 8388608 (wrap64 (8388608 + 4096)) = .ok dict ∧
      storing.NewEncoder [] (storing.NewState ⟨3, 0, 2⟩) dict true = (s2, some [], none) :=
  init_forces_eos_marker classicProperties storing
    { NewWriter storing false with EOSMarker := false }
    { NewWriter storing false with EOSMarker := true, e := some [] } []
    [[93, 0, 0, 128, 0, 255, 255, 255, 255, 255, 255, 255, 255]] rfl

theorem storing_counts : encoderCounts storing := by
  intro e s p
  simp only [storing, processed, List.length_append]
  omega

theorem Writer.Write_step (api : PropertiesAPI) (C : Collaborators) (hC : encoderCounts C)
    (w : Writer C) (s : C.Out) (p : List Byte) (enc : C.Encoder) (he : w.e = some enc)
    (hs : 0 ≤ w.Size ∧ w.Size < 2 ^ 63)
    (hc : 0 ≤ processed C enc ∧ processed C enc < 2 ^ 63) :
    ∃ enc1 : C.Encoder, (Writer.Write api C w s p).1.1.e = some enc1 ∧
      (Writer.Write api C w s p).1.1.Size = w.Size ∧
      0 ≤ accepted (Writer.Write api C w s p).2 ∧
      (accepted (Writer.Write api C w s p).2 ≤ 0 ∨
        accepted (Writer.Write api C w s p).2 ≤ w.Size - processed C enc) ∧
      processed C enc1 = processed C enc + accepted (Writer.Write api C w s p).2 := by
  rw [Writer.Write_of_init api C w w s s p (Writer.initIfNil_some api C w s enc he),
    Writer.writeBody_sized C w s p enc he hs hc]
  obtain ⟨h1, h2, h3⟩ := hC enc s
    (p.take (min (p.length : Int) (max 0 (w.Size - processed C enc))).toNat)
  refine ⟨_, rfl, rfl, h1, ?_, h3⟩
  simp only [accepted]
  rw [List.length_take] at h2
  by_cases hm : 0 ≤ w.Size - processed C enc
  · right
    rw [max_eq_right hm] at h2 ⊢
    rcases le_total (p.length : Int) (w.Size - processed C enc) with hl | hl
    · rw [min_eq_left hl] at h2 ⊢
      omega
    · rw [min_eq_right hl] at h2 ⊢
      omega
  · left
    rw [max_eq_left (by omega)] at h2 ⊢
    rw [min_eq_right (by omega)] at h2 ⊢
    omega

theorem storing_fresh : freshCounts storing := by
  intro s st d f enc h
  simp only [storing, Option.some.injEq] at h
  subst h
  simp [storing, processed]

theorem Writer.init_state (api : PropertiesAPI) (C : Collaborators) (w : Writer C)
    (s : C.Out) (he : w.e = none) :
    (Writer.init api C w s).1.1.Size = w.Size ∧
    ((Writer.init api C w s).1.1.e = none ∨
      ∃ (dict : C.Dict) (f : Bool),
        (Writer.init api C w s).1.1.e =
          (C.NewEncoder s (C.NewState w.Properties) dict f).2.1) := by
  cases hv : api.Verify w.Properties with
  | some err =>
    rw [Writer.init_invalid_properties api C w s err he hv]
    exact ⟨rfl, Or.inl he⟩
  | none =>
    by_cases hd : MinDictCap ≤ w.DictCap ∧ w.DictCap ≤ MaxDictCap
    · by_cases hb : C.maxMatchLen ≤ w.BufSize
      · cases hdict : C.NewEncoderDict w.DictCap (wrap64 (w.DictCap + w.BufSize)) with
        | error err =>
          rw [Writer.init_dict_error api C w s err he hv hd hb hdict]
          exact ⟨rfl, Or.inl he⟩
        | ok dict =>
          rw [Writer.init_constructs api C w s dict he hv hd hb hdict]
          refine ⟨?_, Or.inr ⟨dict, (w.EOSMarker || decide (w.Size < 0)), ?_⟩⟩
          · rcases C.NewEncoder s (C.NewState w.Properties) dict
              (w.EOSMarker || decide (w.Size < 0)) with ⟨s1, e1, _ | err⟩ <;> rfl
          · rcases C.NewEncoder s (C.NewState w.Properties) dict
              (w.EOSMarker || decide (w.Size < 0)) with ⟨s1, e1, _ | err⟩ <;> rfl
      · rw [Writer.init_small_buffer api C w s he hv hd hb]
        exact ⟨rfl, Or.inl he⟩
    · rw [Writer.init_invalid_dictCap api C w s he hv hd]
      exact ⟨rfl, Or.inl he⟩

theorem Writer.remaining_le (C : Collaborators) (w : Writer C) (hs : 0 ≤ w.Size)
    (hc : ∀ enc : C.Encoder, w.e = some enc →
      0 ≤ processed C enc ∧ processed C enc < 2 ^ 63) :
    0 ≤ w.remaining ∧ w.remaining ≤ w.Size := by
  unfold Writer.remaining
  cases he : w.e with
  | none => simp only; omega
  | some enc =>
    have h := hc enc he
    simp only
    split_ifs <;> omega

theorem Writer.Write_some_potential (api : PropertiesAPI) (C : Collaborators)
    (hC : encoderCounts C) (w : Writer C) (s : C.Out) (p : List Byte) (enc : C.Encoder)
    (he : w.e = some enc) (hs : 0 ≤ w.Size ∧ w.Size < 2 ^ 63)
    (hc : 0 ≤ processed C enc ∧ processed C enc < 2 ^ 63) :
    (Writer.Write api C w s p).1.1.Size = w.Size ∧
    (∀ enc1 : C.Encoder, (Writer.Write api C w s p).1.1.e = some enc1 →
      0 ≤ processed C enc1 ∧ processed C enc1 < 2 ^ 63) ∧
    0 ≤ accepted (Writer.Write api C w s p).2 ∧
    accepted (Writer.Write api C w s p).2 + (Writer.Write api C w s p).1.1.remaining ≤
      w.remaining := by
  obtain ⟨enc1, he1, hs1, hn0, hn, hp1⟩ := Writer.Write_step api C hC w s p enc he hs hc
  refine ⟨hs1, ?_, hn0, ?_⟩
  · intro enc2 he2
    rw [he1] at he2
    injection he2 with he2
    subst he2
    omega
  · unfold Writer.remaining
    rw [he1, he, hs1]
    simp only
    rw [hp1]
    split_ifs <;> omega

theorem Writer.Write_nil_potential (api : PropertiesAPI) (C : Collaborators)
    (hC : encoderCounts C) (hfresh : freshCounts C) (w : Writer C) (s : C.Out)
    (p : List Byte) (he : w.e = none) (hs : 0 ≤ w.Size ∧ w.Size < 2 ^ 63) :
    (Writer.Write api C w s p).1.1.Size = w.Size ∧
    (∀ enc1 : C.Encoder, (Writer.Write api C w s p).1.1.e = some enc1 →
      0 ≤ processed C enc1 ∧ processed C enc1 < 2 ^ 63) ∧
    0 ≤ accepted (Writer.Write api C w s p).2 ∧
    accepted (Writer.Write api C w s p).2 + (Writer.Write api C w s p).1.1.remaining ≤
      w.remaining := by
  obtain ⟨hsize, hfr⟩ := Writer.init_state api C w s he
  have hrange : ∀ enc : C.Encoder, (Writer.init api C w s).1.1.e = some enc →
      0 ≤ processed C enc ∧ processed C enc < 2 ^ 63 := by
    intro enc henc
    rcases hfr with h | ⟨dict, f, h⟩
    · rw [h] at henc
      exact absurd henc (by simp)
    · rw [h] at henc
      exact hfresh s (C.NewState w.Properties) dict f enc henc
  have hrem : w.remaining = w.Size := by
    unfold Writer.remaining
    rw [he]
  rw [hrem]
  have hW : Writer.Write api C w s p =
      match Writer.init api C w s with
      | (st, .error err) => (st, Result.ok (0, some err))
      | (st, .panic msg) => (st, Result.panic msg)
      | ((w1, s1), .ok ()) => Writer.writeBody C w1 s1 p := by
    simp only [Writer.Write, Writer.initIfNil_none api C w s he]
  rw [hW]
  rcases hres : Writer.init api C w s with ⟨⟨w1, s1⟩, res⟩
  rw [hres] at hsize hrange
  simp only at hsize hrange
  have hs1 : 0 ≤ w1.Size ∧ w1.Size < 2 ^ 63 := by rw [hsize]; exact hs
  have hle := Writer.remaining_le C w1 hs1.1 hrange
  cases res with
  | error err =>
    simp only [accepted]
    exact ⟨hsize, hrange, le_refl 0, by omega⟩
  | panic msg =>
    simp only [accepted]
    exact ⟨hsize, hrange, le_refl 0, by omega⟩
  | ok u =>
    cases u
    simp only
    cases he1 : w1.e with
    | none =>
      have hb : Writer.writeBody C w1 s1 p = ((w1, s1), Result.panic "nil pointer dereference") := by
        simp only [Writer.writeBody, he1]
      rw [hb]
      simp only [accepted]
      exact ⟨hsize, hrange, le_refl 0, by omega⟩
    | some enc0 =>
      have hb : Writer.writeBody C w1 s1 p = Writer.Write api C w1 s1 p :=
        (Writer.Write_of_init api C w1 w1 s1 s1 p
          (Writer.initIfNil_some api C w1 s1 enc0 he1)).symm
      rw [hb]
      obtain ⟨h1, h2, h3, h4⟩ :=
        Writer.Write_some_potential api C hC w1 s1 p enc0 he1 hs1 (hrange enc0 he1)
      exact ⟨h1.trans hsize, h2, h3, by omega⟩

theorem Writer.Write_potential (api : PropertiesAPI) (C : Collaborators)
    (hC : encoderCounts C) (hfresh : freshCounts C) (w : Writer C) (s : C.Out)
    (p : List Byte) (hs : 0 ≤ w.Size ∧ w.Size < 2 ^ 63)
    (hc : ∀ enc : C.Encoder, w.e = some enc →
      0 ≤ processed C enc ∧ processed C enc < 2 ^ 63) :
    (Writer.Write api C w s p).1.1.Size = w.Size ∧
    (∀ enc1 : C.Encoder, (Writer.Write api C w s p).1.1.e = some enc1 →
      0 ≤ processed C enc1 ∧ processed C enc1 < 2 ^ 63) ∧
    0 ≤ accepted (Writer.Write api C w s p).2 ∧
    accepted (Writer.Write api C w s p).2 + (Writer.Write api C w s p).1.1.remaining ≤
      w.remaining := by
  cases he : w.e with
  | none => exact Writer.Write_nil_potential api C hC hfresh w s p he hs
  | some enc => exact Writer.Write_some_potential api C hC w s p enc he hs (hc enc he)

theorem writeAll_potential (api : PropertiesAPI) (C : Collaborators) (hC : encoderCounts C)
    (hfresh : freshCounts C) (ps : List (List Byte)) :
    ∀ st : Writer C × C.Out, 0 ≤ st.1.Size ∧ st.1.Size < 2 ^ 63 →
      (∀ enc : C.Encoder, st.1.e = some enc →
        0 ≤ processed C enc ∧ processed C enc < 2 ^ 63) →
      0 ≤ (writeAll api C st ps).2 ∧ (writeAll api C st ps).2 ≤ st.1.remaining := by
  induction ps with
  | nil =>
    intro st hs hc
    have h := Writer.remaining_le C st.1 hs.1 hc
    simp only [writeAll]
    omega
  | cons p ps ih =>
    intro st hs hc
    obtain ⟨h1, h2, h3, h4⟩ := Writer.Write_potential api C hC hfresh st.1 st.2 p hs hc
    have hrest := ih (Writer.Write api C st.1 st.2 p).1 (by rw [h1]; exact hs) h2
    simp only [writeAll]
    omega

/-- C11. The declared size is never exceeded: for a writer with `Size ≥ 0`,
with or without an encoder yet, so that the first `Write` may be the one
that initialises it, over an encoder that accepts between 0 and `len(p)`
bytes per call and whose processed count `Compressed() + Dict.Buffered()`
grows by what it accepted, counts being in the range of `int64`, the sum of
the counts that any sequence of `Write` calls returns is at most `Size`; and
for a writer with encoder `enc` it is at most what the size leaves,
`max(0, Size - processed)`. -/
theorem declared_size_never_exceeded (api : PropertiesAPI) (C : Collaborators)
    (hC : encoderCounts C) (hfresh : freshCounts C) (w : Writer C) (s : C.Out)
    (ps : List (List Byte)) (hs : 0 ≤ w.Size ∧ w.Size < 2 ^ 63)
    (hc : ∀ enc : C.Encoder, w.e = some enc →
      0 ≤ processed C enc ∧ processed C enc < 2 ^ 63) :
    (writeAll api C (w, s) ps).2 ≤ w.Size ∧
    (∀ enc : C.Encoder, w.e = some enc →
      (writeAll api C (w, s) ps).2 ≤ max 0 (w.Size - processed C enc)) := by
  have h := writeAll_potential api C hC hfresh ps (w, s) hs hc
  have hle := Writer.remaining_le C w hs.1 hc
  simp only at h
  refine ⟨by omega, ?_⟩
  intro enc he
  have hrem : w.remaining =
      if w.Size - processed C enc ≤ 0 then 0 else w.Size - processed C enc := by
    unfold Writer.remaining
    rw [he]
  rw [hrem] at h
  rw [le_max_iff]
  split_ifs at h <;> omega

theorem declared_size_never_exceeded_witness :
    (writeAll classicProperties storing ({ NewWriter storing false with Size := 10 }, [])
      [[1, 2, 3, 4, 5, 6, 7, 8, 9, 10, 11, 12, 13, 14, 15], [16, 17]]).2 ≤ 10 :=
  (declared_size_never_exceeded classicProperties storing storing_counts storing_fresh
    { NewWriter storing false with Size := 10 } []
    [[1, 2, 3, 4, 5, 6, 7, 8, 9, 10, 11, 12, 13, 14, 15], [16, 17]] (by decide)
    (fun _ h => absurd h (by simp [NewWriter]))).1

/-- C16, as stated, fails: a writer with `DictCap = 4095` fails its first
`Write` with the range error, its encoder staying nil; once the caller has
set `DictCap` to 4096, the next `Write` runs the initialisation again,
which now constructs the encoder and writes the header, and the call
succeeds. -/
theorem init_rerun_after_correction :
    Writer.Write classicProperties storing { NewWriter storing false with DictCap := 4095 } []
        [1, 2, 3] =
      (({ NewWriter storing false with DictCap := 4095 }, []),
        Result.ok (0, some (.New "lzma.Writer: DictCap out of range"))) ∧
    Writer.Write classicProperties storing
        { (Writer.Write classicProperties storing
            { NewWriter storing false with DictCap := 4095 } [] [1, 2, 3]).1.1 with
          DictCap := 4096 }
        (Writer.Write classicProperties storing
            { NewWriter storing false with DictCap := 4095 } [] [1, 2, 3]).1.2
        [1, 2, 3] =
      (({ NewWriter storing false with DictCap := 4096, e := some [1, 2, 3] },
          [[93, 0, 16, 0, 0, 255, 255, 255, 255, 255, 255, 255, 255]]),
        Result.ok (3, none)) :=
  ⟨rfl, rfl⟩

theorem Writer.failed_validation (api : PropertiesAPI) (C : Collaborators) (w : Writer C)
    (s : C.Out) (he : w.e = none)
    (hfail : api.Verify w.Properties ≠ none ∨
      ¬ (MinDictCap ≤ w.DictCap ∧ w.DictCap ≤ MaxDictCap) ∨ ¬ (C.maxMatchLen ≤ w.BufSize)) :
    ∃ (err : Error) (w1 : Writer C),
      Writer.init api C w s = ((w1, s), Result.error err) ∧ w1.e = none ∧
      (w1.Properties = w.Properties ∧ w1.DictCap = w.DictCap ∧ w1.Size = w.Size ∧
        w1.BufSize = w.BufSize) ∧
      Writer.init api C w1 s = ((w1, s), Result.error err) := by
  cases hv : api.Verify w.Properties with
  | some err =>
    have h := Writer.init_invalid_properties api C w s err he hv
    exact ⟨err, w, h, he, ⟨rfl, rfl, rfl, rfl⟩, h⟩
  | none =>
    by_cases hd : MinDictCap ≤ w.DictCap ∧ w.DictCap ≤ MaxDictCap
    · have hb : ¬ (C.maxMatchLen ≤ w.BufSize) := by
        rcases hfail with h | h | h
        · exact absurd hv h
        · exact absurd hd h
        · exact h
      have h := Writer.init_small_buffer api C w s he hv hd hb
      refine ⟨_, _, h, he, ⟨rfl, rfl, rfl, rfl⟩, ?_⟩
      have h2 := Writer.init_small_buffer api C
        { w with EOSMarker := (w.EOSMarker || decide (w.Size < 0)) } s he hv hd hb
      rw [h2]
      simp only [Bool.or_assoc, Bool.or_self]
    · have h := Writer.init_invalid_dictCap api C w s he hv hd
      exact ⟨_, w, h, he, ⟨rfl, rfl, rfl, rfl⟩, h⟩

theorem Writer.init_success (api : PropertiesAPI) (C : Collaborators) (w : Writer C)
    (s s1 s2 : C.Out) (dict : C.Dict) (enc : C.Encoder) (n : Int) (he : w.e = none)
    (hv : api.Verify w.Properties = none)
    (hd : MinDictCap ≤ w.DictCap ∧ w.DictCap ≤ MaxDictCap)
    (hb : C.maxMatchLen ≤ w.BufSize)
    (hdict : C.NewEncoderDict w.DictCap (wrap64 (w.DictCap + w.BufSize)) = .ok dict)
    (hnew : C.NewEncoder s (C.NewState w.Properties) dict
      (w.EOSMarker || decide (w.Size < 0)) = (s1, some enc, none))
    (hhdr : C.bw.Write s1 (headerBytes api w.parameters) = (s2, n, none)) :
    Writer.init api C w s =
      (({ w with EOSMarker := (w.EOSMarker || decide (w.Size < 0)), e := some enc }, s2),
        Result.ok ()) := by
  rw [Writer.init_constructs api C w s dict he hv hd hb hdict, hnew]
  simp only [headerBytes, Writer.parameters] at hhdr
  simp only [Writer.writeHeader_bytes, headerBytes, Writer.parameters, hhdr, afterWrite]

/-- C16, amended. A `Write` or `Close` runs `init` exactly when the encoder
of the writer is nil. With an encoder the call goes straight to its own
statements. Without one it starts with `init`, whether or not an earlier
call failed: when the validation passes and the collaborators and the
header write succeed, the encoder is constructed, the 13 header bytes are
written, and the call goes on with its own statements on the initialised
writer. After a failure of the validation in `init` (invalid properties,
`DictCap` out of range, or buffer too small) the encoder is still nil, the
output state is as it was and the properties, dictionary capacity, size and
buffer size of the writer are as they were; a `Write` or `Close` that
follows on that writer fails with the same error, nothing being written. -/
theorem init_runs_while_nil (api : PropertiesAPI) (C : Collaborators) (w : Writer C)
    (s : C.Out) (p : List Byte) :
    (∀ enc : C.Encoder, w.e = some enc →
      Writer.Write api C w s p = Writer.writeBody C w s p ∧
      Writer.Close api C w s = Writer.closeBody C w s) ∧
    (w.e = none →
      Writer.Write api C w s p =
        (match Writer.init api C w s with
          | (st, .error err) => (st, Result.ok (0, some err))
          | (st, .panic msg) => (st, Result.panic msg)
          | ((w1, s1), .ok ()) => Writer.writeBody C w1 s1 p) ∧
      Writer.Close api C w s =
        (match Writer.init api C w s with
          | (st, .error err) => (st, Result.error err)
          | (st, .panic msg) => (st, Result.panic msg)
          | ((w1, s1), .ok ()) => Writer.closeBody C w1 s1)) ∧
    (w.e = none → api.Verify w.Properties = none →
      MinDictCap ≤ w.DictCap ∧ w.DictCap ≤ MaxDictCap → C.maxMatchLen ≤ w.BufSize →
      ∀ (dict : C.Dict) (enc : C.Encoder) (s1 s2 : C.Out) (n : Int),
        C.NewEncoderDict w.DictCap (wrap64 (w.DictCap + w.BufSize)) = .ok dict →
        C.NewEncoder s (C.NewState w.Properties) dict
          (w.EOSMarker || decide (w.Size < 0)) = (s1, some enc, none) →
        C.bw.Write s1 (headerBytes api w.parameters) = (s2, n, none) →
        Writer.init api C w s =
          (({ w with EOSMarker := (w.EOSMarker || decide (w.Size < 0)), e := some enc }, s2),
            Result.ok ()) ∧
        Writer.Write api C w s p =
          Writer.writeBody C
            { w with EOSMarker := (w.EOSMarker || decide (w.Size < 0)), e := some enc } s2 p ∧
        Writer.Close api C w s =
          Writer.closeBody C
            { w with EOSMarker := (w.EOSMarker || decide (w.Size < 0)), e := some enc } s2) ∧
    (w.e = none →
      (api.Verify w.Properties ≠ none ∨
        ¬ (MinDictCap ≤ w.DictCap ∧ w.DictCap ≤ MaxDictCap) ∨
        ¬ (C.maxMatchLen ≤ w.BufSize)) →
      ∃ (err : Error) (w1 : Writer C),
        Writer.init api C w s = ((w1, s), Result.error err) ∧ w1.e = none ∧
        (w1.Properties = w.Properties ∧ w1.DictCap = w.DictCap ∧ w1.Size = w.Size ∧
          w1.BufSize = w.BufSize) ∧
        Writer.Write api C w s p = ((w1, s), Result.ok (0, some err)) ∧
        Writer.Close api C w s = ((w1, s), Result.error err) ∧
        Writer.init api C w1 s = ((w1, s), Result.error err) ∧
        Writer.Write api C w1 s p = ((w1, s), Result.ok (0, some err)) ∧
        Writer.Close api C w1 s = ((w1, s), Result.error err)) := by
  refine ⟨?_, ?_, ?_, ?_⟩
  · intro enc he
    have h := Writer.initIfNil_some api C w s enc he
    exact ⟨Writer.Write_of_init api C w w s s p h, Writer.Close_of_init api C w w s s h⟩
  · intro he
    have hi := Writer.initIfNil_none api C w s he
    constructor
    · simp only [Writer.Write, hi]
    · simp only [Writer.Close, hi]
  · intro he hv hd hb dict enc s1 s2 n hdict hnew hhdr
    have h := Writer.init_success api C w s s1 s2 dict enc n he hv hd hb hdict hnew hhdr
    have hi := (Writer.initIfNil_none api C w s he).trans h
    exact ⟨h, Writer.Write_of_init api C w _ s s2 p hi, Writer.Close_of_init api C w _ s s2 hi⟩
  · intro he hfail
    obtain ⟨err, w1, h1, he1, hf, h2⟩ := Writer.failed_validation api C w s he hfail
    have hi0 := Writer.initIfNil_none api C w s he
    have hi := Writer.initIfNil_none api C w1 s he1
    refine ⟨err, w1, h1, he1, hf, ?_, ?_, h2, ?_, ?_⟩
    · simp only [Writer.Write, hi0, h1]
    · simp only [Writer.Close, hi0, h1]
    · simp only [Writer.Write, hi, h2]
    · simp only [Writer.Close, hi, h2]

theorem init_runs_while_nil_witness :
    (∃ (err : Error) (w1 : Writer storing),
      Writer.init classicProperties storing { NewWriter storing false with BufSize := 100 } [] =
        ((w1, []), Result.error err) ∧
      Writer.Write classicProperties storing w1 [] [1, 2, 3] =
        ((w1, []), Result.ok (0, some err))) ∧
    Writer.Write classicProperties storing { NewWriter storing false with DictCap := 4096 } []
        [1, 2, 3] =
      Writer.writeBody storing { NewWriter storing false with DictCap := 4096, e := some [] }
        [[93, 0, 16, 0, 0, 255, 255, 255, 255, 255, 255, 255, 255]] [1, 2, 3] := by
  constructor
  · obtain ⟨err, w1, h1, -, -, -, -, -, h2, -⟩ :=
      (init_runs_while_nil classicProperties storing
        { NewWriter storing false with BufSize := 100 } [] [1, 2, 3]).2.2.2 rfl
        (Or.inr (Or.inr (by decide)))
    exact ⟨err, w1, h1, h2⟩
  · exact ((init_runs_while_nil classicProperties storing
      { NewWriter storing false with DictCap := 4096 } [] [1, 2, 3]).2.2.1 rfl (by decide)
      (by decide) (by decide) (4096, 8192) [] []
      [[93, 0, 16, 0, 0, 255, 255, 255, 255, 255, 255, 255, 255]] 13 rfl rfl rfl).2.1

end lzma
